import Mathlib

/-!
# Verification of the Fortune's-algorithm Voronoi library against its specification

This file gives a shallow embedding, over exact rationals, of the parts of the
`fortunes_algorithm_rs` repository that the specification's claims talk about:

* the 2D geometry kernel (`vector2.rs`),
* the parabola breakpoint computation (`beachline.rs`, `compute_breakpoint`),
* the bounding box (`boundingbox.rs`),
* the cancellable-slot event queue (`event.rs`),
* the beachline tree (`beachline.rs`),
* the two DCEL variants (`voronoi.rs` and `diagram.rs`),
* and the sweep driver (`lib.rs`).

IEEE-754 doubles are modelled as rationals; `f64::sqrt` is threaded through as
an explicit function parameter wherever the code calls it, so that all
definitions stay computable and no property depends on a particular square
root.  Rust `panic!`s and `Option::unwrap` failures are modelled by an explicit
`Panic` error type in an `Except` monad.  Division by zero follows Lean's
`x / 0 = 0` convention; every concrete evaluation below stays away from inputs
where this differs from IEEE semantics, except where explicitly noted.
-/

namespace Fortunes

/-- 2D vector with rational coordinates (`vector2.rs`, `Vector2`; also stands
for `cgmath::Point2<f64>` in the `diagram.rs`/`boundingbox.rs` half of the
repository). -/
structure Vector2 where
  x : ℚ
  y : ℚ
  deriving DecidableEq, Repr

namespace Vector2

/-- `impl Sub for Vector2`. -/
def sub (a b : Vector2) : Vector2 := ⟨a.x - b.x, a.y - b.y⟩

/-- `impl Add for Vector2`. -/
def add (a b : Vector2) : Vector2 := ⟨a.x + b.x, a.y + b.y⟩

/-- `impl Mul<f64> for Vector2`: componentwise scaling. -/
def mul (a : Vector2) (s : ℚ) : Vector2 := ⟨a.x * s, a.y * s⟩

/-- `Vector2::get_orthogonal`: `(-y, x)`, a 90° rotation. -/
def get_orthogonal (a : Vector2) : Vector2 := ⟨-a.y, a.x⟩

/-- `Vector2::get_det`: `a.x * b.y - a.y * b.x`. -/
def get_det (a b : Vector2) : ℚ := a.x * b.y - a.y * b.x

end Vector2

/-- `vector2.rs`, `compute_circumcircle_center`: center of the circle through
three points (square-root free, hence exactly representable over ℚ). -/
def compute_circumcircle_center (point_1 point_2 point_3 : Vector2) : Vector2 :=
  let v1 := (point_1.sub point_2).get_orthogonal
  let v2 := (point_2.sub point_3).get_orthogonal
  let delta := (point_3.sub point_1).mul (1/2)
  let t := delta.get_det v2 / v1.get_det v2
  ((point_1.add point_2).mul (1/2)).add (v1.mul t)

/-- `beachline.rs`, `compute_breakpoint` (lines 460–482), translated verbatim:
the x-coordinate where the parabolas with foci `point1`, `point2` and common
directrix `y` meet.  `sqrt` stands for `f64::sqrt`.  Note the third special
case returns `point2.y` exactly as the source does. -/
def compute_breakpoint (sqrt : ℚ → ℚ) (point1 point2 : Vector2) (y : ℚ) : ℚ :=
  let d1 := 1 / (2 * (point1.y - y))
  let d2 := 1 / (2 * (point2.y - y))
  let a := d1 - d2
  let b := 2 * (point2.x * d2 - point1.x * d1)
  let c := (point1.y ^ 2 + point1.x ^ 2 - y ^ 2) * d1
    - (point2.y ^ 2 + point2.x ^ 2 - y ^ 2) * d2
  if a = 0 then -c / b
  else if point1.y = y then point1.x
  else if point2.y = y then point2.y
  else (-b - sqrt (b ^ 2 - 4 * a * c)) / (2 * a)

/-- Modelled from the spec: the breakpoint formula exactly as §4.4 of the
specification prescribes it, for comparison with `compute_breakpoint`.  It is
identical to the source translation except that the `p2.y = y` special case
returns `p2.x`, as the spec says. -/
def breakpoint_spec (sqrt : ℚ → ℚ) (point1 point2 : Vector2) (y : ℚ) : ℚ :=
  let d1 := 1 / (2 * (point1.y - y))
  let d2 := 1 / (2 * (point2.y - y))
  let a := d1 - d2
  let b := 2 * (point2.x * d2 - point1.x * d1)
  let c := (point1.y ^ 2 + point1.x ^ 2 - y ^ 2) * d1
    - (point2.y ^ 2 + point2.x ^ 2 - y ^ 2) * d2
  if a = 0 then -c / b
  else if point1.y = y then point1.x
  else if point2.y = y then point2.x
  else (-b - sqrt (b ^ 2 - 4 * a * c)) / (2 * a)

/-! ## Bounding box (`boundingbox.rs`) -/

/-- `boundingbox.rs`, `enum Side` (the `None` variant is called `nothing`
here to avoid clashing with `Option.none`). -/
inductive Side where
  | left
  | right
  | top
  | bottom
  | nothing
  deriving DecidableEq, Repr

/-- `Side::next`: anti-clockwise successor of a side. -/
def Side.next : Side → Side
  | .left => .bottom
  | .top => .left
  | .right => .top
  | .bottom => .right
  | .nothing => .nothing

/-- `boundingbox.rs`, `struct BoundingBox` (with `top < bottom`: the y-axis
grows downward along the sweep). -/
structure BoundingBox where
  left : ℚ
  right : ℚ
  top : ℚ
  bottom : ℚ
  deriving DecidableEq, Repr

/-- `f64::MIN`, the sentinel used by `get_intersection` when `direction.x`
is zero: `-(2^1024 - 2^971)`. -/
def F64_MIN : ℚ := -(2 ^ 1024 - 2 ^ 971)

/-- `f64::MAX`, the sentinel used by `get_intersection` when `direction.y`
is zero: `2^1024 - 2^971`. -/
def F64_MAX : ℚ := 2 ^ 1024 - 2 ^ 971

namespace BoundingBox

/-- `BoundingBox::contains`: inclusive point-in-rectangle test. -/
def contains (b : BoundingBox) (point : Vector2) : Prop :=
  b.left ≤ point.x ∧ point.x ≤ b.right ∧ b.top ≤ point.y ∧ point.y ≤ b.bottom

instance (b : BoundingBox) (p : Vector2) : Decidable (b.contains p) := by
  unfold contains; infer_instance

/-- `BoundingBox::get_intersection` (lines 51–76), translated verbatim.  The
source `assert!(self.contains(origin))` is reflected in the theorems below by
a `contains` hypothesis.  Candidate parameters `t1` (vertical sides) and `t2`
(horizontal sides) are computed exactly as in the source — including the
`f64::MIN` / `f64::MAX` sentinels for axis-parallel directions — and the one
with the smaller absolute value is used. -/
def get_intersection (b : BoundingBox) (origin direction : Vector2) :
    Vector2 × Side :=
  let p1 : ℚ × Side :=
    if direction.x < 0 then ((b.right - origin.x) / direction.x, Side.right)
    else if 0 < direction.x then ((b.left - origin.x) / direction.x, Side.left)
    else (F64_MIN, Side.nothing)
  let p2 : ℚ × Side :=
    if 0 < direction.y then ((b.top - origin.y) / direction.y, Side.top)
    else if direction.y < 0 then ((b.bottom - origin.y) / direction.y, Side.bottom)
    else (F64_MAX, Side.nothing)
  let ts := if |p2.1| < |p1.1| then p2 else p1
  (origin.add (direction.mul ts.1), ts.2)

/-- The `// Left` block of `BoundingBox::get_intersections` (lines 111–120):
the candidate crossing of segment `origin→destination` with the left side,
pushed when the parameter is strictly inside `(0,1)` and the hit is within the
side's extent. -/
def left_hits (b : BoundingBox) (origin destination direction : Vector2) :
    List (Vector2 × Side) :=
  if origin.x < b.left ∨ destination.x < b.left then
    let t := (b.left - origin.x) / direction.x
    if 0 < t ∧ t < 1 then
      let pt := origin.add (direction.mul t)
      if b.top ≤ pt.y ∧ pt.y ≤ b.bottom then [(pt, Side.left)] else []
    else []
  else []

/-- The `// Right` block of `BoundingBox::get_intersections` (lines 121–130). -/
def right_hits (b : BoundingBox) (origin destination direction : Vector2) :
    List (Vector2 × Side) :=
  if b.right < origin.x ∨ b.right < destination.x then
    let t := (b.right - origin.x) / direction.x
    if 0 < t ∧ t < 1 then
      let pt := origin.add (direction.mul t)
      if b.top ≤ pt.y ∧ pt.y ≤ b.bottom then [(pt, Side.right)] else []
    else []
  else []

/-- The `// Top` block of `BoundingBox::get_intersections` (lines 131–140). -/
def top_hits (b : BoundingBox) (origin destination direction : Vector2) :
    List (Vector2 × Side) :=
  if origin.y < b.top ∨ destination.y < b.top then
    let t := (b.top - origin.y) / direction.y
    if 0 < t ∧ t < 1 then
      let pt := origin.add (direction.mul t)
      if b.left ≤ pt.x ∧ pt.x ≤ b.right then [(pt, Side.top)] else []
    else []
  else []

/-- The `// Bottom` block of `BoundingBox::get_intersections` (lines 141–150). -/
def bottom_hits (b : BoundingBox) (origin destination direction : Vector2) :
    List (Vector2 × Side) :=
  if b.bottom < origin.y ∨ b.bottom < destination.y then
    let t := (b.bottom - origin.y) / direction.y
    if 0 < t ∧ t < 1 then
      let pt := origin.add (direction.mul t)
      if b.left ≤ pt.x ∧ pt.x ≤ b.right then [(pt, Side.bottom)] else []
    else []
  else []

/-- `BoundingBox::get_intersections` (lines 104–153): the four side blocks in
source order, each appending at most one `(point, side)` pair to the result
vector. -/
def get_intersections (b : BoundingBox) (origin destination : Vector2) :
    List (Vector2 × Side) :=
  let direction := destination.sub origin
  left_hits b origin destination direction
    ++ right_hits b origin destination direction
    ++ top_hits b origin destination direction
    ++ bottom_hits b origin destination direction

/-- `p` lies on side `s` of box `b` (on the side's supporting line and within
the side's extent).  The `nothing` pseudo-side contains no point. -/
def onSide (b : BoundingBox) : Side → Vector2 → Prop
  | .left, p => p.x = b.left ∧ b.top ≤ p.y ∧ p.y ≤ b.bottom
  | .right, p => p.x = b.right ∧ b.top ≤ p.y ∧ p.y ≤ b.bottom
  | .top, p => p.y = b.top ∧ b.left ≤ p.x ∧ p.x ≤ b.right
  | .bottom, p => p.y = b.bottom ∧ b.left ≤ p.x ∧ p.x ≤ b.right
  | .nothing, _ => False

end BoundingBox

/-! ## Event queue (`event.rs`) -/

/-- `event.rs`, `enum EventType`: a site event carries a face reference, a
circle event a circumcenter point and a beachline arc reference. -/
inductive EventType where
  | site (face : Nat)
  | circle (point : Vector2) (arc : Nat)
  deriving DecidableEq, Repr

/-- `event.rs`, `struct Event`.  The `id` field models the identity of the
`Rc` allocation holding the event: a `Weak` handle held by an arc is modelled
as this number, and upgrading succeeds exactly while an event with that id is
still stored in the queue (the queue holds the only strong reference; both
`pop` and `remove_event` destroy it).  `index` is the heap back-reference
maintained by `swap`, exactly as in the source. -/
structure Event where
  y : ℚ
  index : Nat
  id : Nat
  event_type : EventType
  deriving DecidableEq, Repr

instance : Inhabited Event := ⟨⟨0, 0, 0, .site 0⟩⟩

/-- The part of an event that is not the mutable heap back-reference: used to
state that operations move events around without altering them. -/
def Event.payload (e : Event) : ℚ × Nat × EventType := (e.y, e.id, e.event_type)

/-- `event.rs`, `get_parent`: `(index + 1) / 2 - 1`. -/
def get_parent (index : Nat) : Nat := (index + 1) / 2 - 1

/-- `event.rs`, `get_left`: `2 * (index + 1) - 1`. -/
def get_left (index : Nat) : Nat := 2 * (index + 1) - 1

/-- `event.rs`, `get_right`: `2 * (index + 1)`. -/
def get_right (index : Nat) : Nat := 2 * (index + 1)

/-- The y value stored at position `i` of the queue (the comparison
`*self.queue[a].borrow() > *self.queue[b].borrow()` compares events by `y`
via their `PartialOrd` instance).  Positions out of range give a junk value;
every use below is guarded by a bounds check, as in the source, where an
out-of-range access would panic. -/
def yAt (q : List Event) (i : Nat) : ℚ := (q[i]?.map Event.y).getD 0

/-- `EventQueue::swap`: swap the two slots and update both events' `index`
back-references.  Out-of-range indices (a panic in Rust) leave the queue
unchanged; all uses are in bounds. -/
def qswap (q : List Event) (i j : Nat) : List Event :=
  if h : i < q.length ∧ j < q.length then
    (q.set i { q.get ⟨j, h.2⟩ with index := i }).set j
      { q.get ⟨i, h.1⟩ with index := j }
  else q

/-- `EventQueue::sift_up`: while the parent's event is greater, swap with the
parent. -/
def sift_up (q : List Event) (index : Nat) : List Event :=
  if 0 < index ∧ yAt q index < yAt q (get_parent index) then
    sift_up (qswap q index (get_parent index)) (get_parent index)
  else q
  termination_by index
  decreasing_by
    simp only [get_parent]
    omega

/-- The `new_index` computed by one iteration of `EventQueue::sift_down`:
the smaller child if it beats the current slot (left child first, then right
child compared against the intermediate choice). -/
def sd_target (q : List Event) (index : Nat) : Nat :=
  let n1 := if get_left index < q.length ∧ yAt q (get_left index) < yAt q index
    then get_left index else index
  if get_right index < q.length ∧ yAt q (get_right index) < yAt q n1
    then get_right index else n1

/-- `EventQueue::sift_down`: repeatedly swap the current slot with its
smaller child until neither child is smaller. -/
def sift_down (q : List Event) (index : Nat) : List Event :=
  if h : sd_target q index = index then q
  else sift_down (qswap q index (sd_target q index)) (sd_target q index)
  termination_by q.length - index
  decreasing_by
    have hlen : (qswap q index (sd_target q index)).length = q.length := by
      unfold qswap
      split <;> simp
    have hcc : index < sd_target q index ∧ sd_target q index < q.length := by
      dsimp only [sd_target] at h ⊢
      split_ifs at h ⊢ with h1 h2 h3
      · exact ⟨by unfold get_right; omega, h2.1⟩
      · exact ⟨by unfold get_left; omega, h1.1⟩
      · exact ⟨by unfold get_right; omega, h3.1⟩
      · exact absurd rfl h
    rw [hlen]
    omega

/-- `EventQueue::update`: sift up if the parent is greater, otherwise sift
down. -/
def update (q : List Event) (index : Nat) : List Event :=
  if 0 < index ∧ yAt q index < yAt q (get_parent index) then sift_up q index
  else sift_down q index

/-- `event.rs`, `struct EventQueue` plus the id counter that models `Rc`
allocation identities. -/
structure EventQueue where
  queue : List Event
  next_id : Nat

namespace EventQueue

/-- `EventQueue::new`. -/
def new : EventQueue := ⟨[], 0⟩

/-- `EventQueue::add_site_event`: append with `index = len`, sift up, and
return the `Weak` handle (modelled by the fresh id). -/
def add_site_event (eq : EventQueue) (y : ℚ) (face : Nat) : Nat × EventQueue :=
  let index := eq.queue.length
  let ev : Event := ⟨y, index, eq.next_id, .site face⟩
  (eq.next_id, ⟨sift_up (eq.queue ++ [ev]) index, eq.next_id + 1⟩)

/-- `EventQueue::add_circle_event`. -/
def add_circle_event (eq : EventQueue) (y : ℚ) (point : Vector2) (arc : Nat) :
    Nat × EventQueue :=
  let index := eq.queue.length
  let ev : Event := ⟨y, index, eq.next_id, .circle point arc⟩
  (eq.next_id, ⟨sift_up (eq.queue ++ [ev]) index, eq.next_id + 1⟩)

/-- `EventQueue::pop`: swap the root with the last slot, pop the vector,
sift the new root down, and return the unwrapped event. -/
def pop (eq : EventQueue) : Option Event × EventQueue :=
  if eq.queue.isEmpty then (none, eq)
  else
    let q1 := qswap eq.queue 0 (eq.queue.length - 1)
    (q1.getLast?, ⟨sift_down q1.dropLast 0, eq.next_id⟩)

/-- `EventQueue::remove_event`: swap the slot with the last one, pop the
vector, and re-heapify at the slot if it is still in range. -/
def remove_event (eq : EventQueue) (index : Nat) : EventQueue :=
  let q1 := qswap eq.queue index (eq.queue.length - 1)
  let q2 := q1.dropLast
  ⟨if index < q2.length then update q2 index else q2, eq.next_id⟩

/-- `Weak::upgrade` on a stored handle: succeeds exactly while the event is
still in the queue (the queue's `Rc` is the only strong reference; `pop`
unwraps it and `remove_event` drops it). -/
def upgrade (eq : EventQueue) (id : Nat) : Option Event :=
  eq.queue.find? (fun e => e.id == id)

end EventQueue

/-- `lib.rs`, `delete_event`, at the queue level: upgrade the stored weak
handle; if it is live, remove the event at its recorded heap index; if it is
stale, do nothing. -/
def remove_by_handle (eq : EventQueue) (id : Nat) : EventQueue :=
  match eq.upgrade id with
  | some event => eq.remove_event event.index
  | none => eq

/-- The binary min-heap ordering invariant of `event.rs`: every non-root
slot is at least its parent. -/
def IsMinHeap (q : List Event) : Prop :=
  ∀ i : Nat, 0 < i → i < q.length → yAt q (get_parent i) ≤ yAt q i

/-- The back-reference invariant: every stored event records its own heap
position. -/
def IndexOK (q : List Event) : Prop :=
  ∀ (i : Nat) (e : Event), q[i]? = some e → e.index = i

/-- The queue states reachable through the public operations of
`EventQueue`, starting from `new` — `remove_event` only ever being called
with the recorded index of a live event, which is always in range. -/
inductive Reachable : EventQueue → Prop where
  | new : Reachable EventQueue.new
  | add_site (eq : EventQueue) (y : ℚ) (face : Nat) :
      Reachable eq → Reachable (eq.add_site_event y face).2
  | add_circle (eq : EventQueue) (y : ℚ) (point : Vector2) (arc : Nat) :
      Reachable eq → Reachable (eq.add_circle_event y point arc).2
  | pop (eq : EventQueue) : Reachable eq → Reachable (eq.pop).2
  | remove (eq : EventQueue) (index : Nat) :
      Reachable eq → index < eq.queue.length → Reachable (eq.remove_event index)


/-! ## Panics -/

/-- The distinct failure modes of the Rust code: `Option::unwrap` on `None`
(and the equivalent arena-access panics), the explicit
`panic!("Two sites located at the same point")` in `locate_arc_above`, and a
fuel bound standing for a loop that fails to terminate (an embedding
artifact; every theorem below supplies enough fuel). -/
inductive Panic where
  | unwrapNone
  | duplicateSite
  | outOfFuel
  deriving DecidableEq, Repr

/-- `Option::unwrap`: a `None` is a panic. -/
def lift {α : Type} : Option α → Except Panic α
  | some a => Except.ok a
  | none => Except.error Panic.unwrapNone

/-- Positional update of a list entry, used for the `TypedVec`-backed pools
of `voronoi.rs` (a plain `Vec` whose indices are positions). -/
def updAt {α : Type} (l : List α) (i : Nat) (f : α → α) : List α :=
  match l[i]? with
  | some a => l.set i (f a)
  | none => l

/-! ## The DCEL of `voronoi.rs` -/

/-- `voronoi.rs`, `struct Site`. -/
structure Site where
  point : Vector2
  face : Option Nat
  deriving DecidableEq, Repr

/-- `voronoi.rs`, `struct Vertex`. -/
structure Vertex where
  point : Vector2
  deriving DecidableEq, Repr

/-- `voronoi.rs`, `struct HalfEdge`. -/
structure HalfEdge where
  origin : Option Nat
  destination : Option Nat
  twin : Option Nat
  incident_face : Option Nat
  prev : Option Nat
  next : Option Nat
  deriving DecidableEq, Repr

/-- `HalfEdge::new`: only the incident face is known at creation. -/
def HalfEdge.new (incident_face : Nat) : HalfEdge :=
  ⟨none, none, none, some incident_face, none, none⟩

/-- `voronoi.rs`, `struct Face`. -/
structure Face where
  site : Option Nat
  outer_component : Option Nat
  deriving DecidableEq, Repr

/-- `voronoi.rs`, `struct Voronoi`: four `TypedVec` pools (plain vectors,
indices are positions, entries are never removed). -/
structure Voronoi where
  sites : List Site
  faces : List Face
  vertices : List Vertex
  half_edges : List HalfEdge
  deriving DecidableEq, Repr

namespace Voronoi

/-- `Voronoi::add_site_for_point`. -/
def add_site_for_point (v : Voronoi) (point : Vector2) : Nat × Voronoi :=
  (v.sites.length, { v with sites := v.sites ++ [⟨point, none⟩] })

/-- `Voronoi::set_site_face` (panics on a missing site; a missing site is
modelled as no change — all calls are on live sites). -/
def set_site_face (v : Voronoi) (site : Nat) (face : Option Nat) : Voronoi :=
  { v with sites := updAt v.sites site (fun s => { s with face := face }) }

/-- `Voronoi::new`: one face per input point, site and face linked. -/
def new (points : List Vector2) : Voronoi :=
  points.foldl
    (fun v point =>
      let sv := v.add_site_for_point point
      let face := sv.2.faces.length
      let v2 := { sv.2 with faces := sv.2.faces ++ [(⟨some sv.1, none⟩ : Face)] }
      v2.set_site_face sv.1 (some face))
    ⟨[], [], [], []⟩

/-- `Voronoi::get_site_point` (the outer `Option` is the arena access that
panics in Rust). -/
def get_site_point (v : Voronoi) (site : Nat) : Option Vector2 :=
  (v.sites[site]?).map Site.point

/-- `Voronoi::get_site_face`: outer `Option` = arena access, inner = the
stored field. -/
def get_site_face (v : Voronoi) (site : Nat) : Option (Option Nat) :=
  (v.sites[site]?).map Site.face

/-- `Voronoi::get_face_outer_component`. -/
def get_face_outer_component (v : Voronoi) (face : Nat) : Option (Option Nat) :=
  (v.faces[face]?).map Face.outer_component

/-- `Voronoi::set_face_outer_component`. -/
def set_face_outer_component (v : Voronoi) (face : Nat) (half_edge : Option Nat) :
    Voronoi :=
  { v with faces := updAt v.faces face (fun f => { f with outer_component := half_edge }) }

/-- `Voronoi::create_half_edge`: insert a fresh half-edge incident to `face`,
and make it the face's outer component if the face had none. -/
def create_half_edge (v : Voronoi) (face : Nat) : Nat × Voronoi :=
  let idx := v.half_edges.length
  let v1 := { v with half_edges := v.half_edges ++ [HalfEdge.new face] }
  if v1.get_face_outer_component face = some none then
    (idx, v1.set_face_outer_component face (some idx))
  else (idx, v1)

/-- `Voronoi::create_vertex`. -/
def create_vertex (v : Voronoi) (point : Vector2) : Nat × Voronoi :=
  (v.vertices.length, { v with vertices := v.vertices ++ [⟨point⟩] })

/-- `Voronoi::set_half_edge_twin` (private, used by `add_edge`). -/
def set_half_edge_twin (v : Voronoi) (he : Nat) (twin : Option Nat) : Voronoi :=
  { v with half_edges := updAt v.half_edges he (fun e => { e with twin := twin }) }

/-- `Voronoi::set_half_edge_origin`. -/
def set_half_edge_origin (v : Voronoi) (he : Nat) (origin : Option Nat) : Voronoi :=
  { v with half_edges := updAt v.half_edges he (fun e => { e with origin := origin }) }

/-- `Voronoi::set_half_edge_destination`. -/
def set_half_edge_destination (v : Voronoi) (he : Nat) (destination : Option Nat) :
    Voronoi :=
  { v with half_edges := updAt v.half_edges he (fun e => { e with destination := destination }) }

/-- `Voronoi::set_half_edge_prev`. -/
def set_half_edge_prev (v : Voronoi) (he : Nat) (prev : Option Nat) : Voronoi :=
  { v with half_edges := updAt v.half_edges he (fun e => { e with prev := prev }) }

/-- `Voronoi::set_half_edge_next`. -/
def set_half_edge_next (v : Voronoi) (he : Nat) (next : Option Nat) : Voronoi :=
  { v with half_edges := updAt v.half_edges he (fun e => { e with next := next }) }

/-- `Voronoi::get_half_edge_twin`. -/
def get_half_edge_twin (v : Voronoi) (he : Nat) : Option (Option Nat) :=
  (v.half_edges[he]?).map HalfEdge.twin

/-- `Voronoi::add_edge`: a twinned pair of fresh half-edges incident to the
faces of the two sites (`get_site_face(..).unwrap()` panics if a site has no
face). -/
def add_edge (v : Voronoi) (left_site right_site : Nat) :
    Except Panic (Nat × Nat × Voronoi) := do
  let f1o ← lift (v.get_site_face left_site)
  let f1 ← lift f1o
  let f2o ← lift (v.get_site_face right_site)
  let f2 ← lift f2o
  let h1 := v.create_half_edge f1
  let h2 := h1.2.create_half_edge f2
  let v3 := h2.2.set_half_edge_twin h1.1 (some h2.1)
  let v4 := v3.set_half_edge_twin h2.1 (some h1.1)
  pure (h1.1, h2.1, v4)

end Voronoi

/-! ## The beachline tree (`beachline.rs`) -/

/-- `beachline.rs`, `enum Color`. -/
inductive Color where
  | red
  | black
  deriving DecidableEq, Repr

/-- `beachline.rs`, `struct Arc`.  The `event` field models the `Weak`
handle to a queued circle event: `none` is `Weak::new()` (never
upgradable), `some id` a handle to the event allocation with that id. -/
structure Arc where
  parent : Option Nat
  left : Option Nat
  right : Option Nat
  site : Option Nat
  left_half_edge : Option Nat
  right_half_edge : Option Nat
  prev : Option Nat
  next : Option Nat
  event : Option Nat
  color : Color
  deriving DecidableEq, Repr

/-- `Arc::new`: a fresh red arc for a site. -/
def Arc.new (site : Nat) : Arc :=
  ⟨none, none, none, some site, none, none, none, none, none, Color.red⟩

/-- `beachline.rs`, `struct Beachline`: a generational arena of arcs
(modelled as an association list with never-reused ids) and the root. -/
structure Beachline where
  arcs : List (Nat × Arc)
  next_id : Nat
  root : Option Nat
  deriving DecidableEq, Repr

namespace Beachline

/-- `Beachline::new`. -/
def new : Beachline := ⟨[], 0, none⟩

/-- Arena lookup (`self.arcs.get(arc)`). -/
def getArc (bl : Beachline) (i : Nat) : Option Arc :=
  (bl.arcs.find? (fun p => p.1 == i)).map Prod.snd

/-- Arena in-place mutation; Rust panics when the arc is missing, every call
below is on a live arc (a missing arc leaves the state unchanged). -/
def updArc (bl : Beachline) (i : Nat) (f : Arc → Arc) : Beachline :=
  { bl with arcs := bl.arcs.map (fun p => if p.1 = i then (p.1, f p.2) else p) }

/-- `self.arcs.insert(..)`: append with a fresh id. -/
def insert_arc (bl : Beachline) (a : Arc) : Nat × Beachline :=
  (bl.next_id, { bl with arcs := bl.arcs ++ [(bl.next_id, a)], next_id := bl.next_id + 1 })

/-- `self.arcs.remove(arc)`. -/
def remove_arc_entry (bl : Beachline) (i : Nat) : Beachline :=
  { bl with arcs := bl.arcs.filter (fun p => p.1 ≠ i) }

/-- `Beachline::has_root`. -/
def has_root (bl : Beachline) : Bool := bl.root.isSome

/-- `Beachline::create_root`. -/
def create_root (bl : Beachline) (site : Nat) : Beachline :=
  let r := bl.insert_arc (Arc.new site)
  let bl2 := r.2.updArc r.1 (fun a => { a with color := Color.black })
  { bl2 with root := some r.1 }

/-- `Beachline::get_left`: the outer `Option` is the arena access (a panic in
Rust when the arc is gone), the inner one the stored field. -/
def get_left (bl : Beachline) (i : Nat) : Option (Option Nat) :=
  (bl.getArc i).map Arc.left

/-- `Beachline::get_right`. -/
def get_right (bl : Beachline) (i : Nat) : Option (Option Nat) :=
  (bl.getArc i).map Arc.right

/-- `Beachline::get_parent`. -/
def get_parent (bl : Beachline) (i : Nat) : Option (Option Nat) :=
  (bl.getArc i).map Arc.parent

/-- `Beachline::get_prev`. -/
def get_prev (bl : Beachline) (i : Nat) : Option (Option Nat) :=
  (bl.getArc i).map Arc.prev

/-- `Beachline::get_next`. -/
def get_next (bl : Beachline) (i : Nat) : Option (Option Nat) :=
  (bl.getArc i).map Arc.next

/-- `Beachline::get_site`. -/
def get_site (bl : Beachline) (i : Nat) : Option (Option Nat) :=
  (bl.getArc i).map Arc.site

/-- `Beachline::get_left_half_edge`. -/
def get_left_half_edge (bl : Beachline) (i : Nat) : Option (Option Nat) :=
  (bl.getArc i).map Arc.left_half_edge

/-- `Beachline::get_right_half_edge`. -/
def get_right_half_edge (bl : Beachline) (i : Nat) : Option (Option Nat) :=
  (bl.getArc i).map Arc.right_half_edge

/-- `Beachline::get_color`. -/
def get_color (bl : Beachline) (i : Nat) : Option Color :=
  (bl.getArc i).map Arc.color

/-- `Beachline::get_arc_event`. -/
def get_arc_event (bl : Beachline) (i : Nat) : Option (Option Nat) :=
  (bl.getArc i).map Arc.event

/-- `Beachline::set_left`. -/
def set_left (bl : Beachline) (i : Nat) (v : Option Nat) : Beachline :=
  bl.updArc i (fun a => { a with left := v })

/-- `Beachline::set_right`. -/
def set_right (bl : Beachline) (i : Nat) (v : Option Nat) : Beachline :=
  bl.updArc i (fun a => { a with right := v })

/-- `Beachline::set_parent`. -/
def set_parent (bl : Beachline) (i : Nat) (v : Option Nat) : Beachline :=
  bl.updArc i (fun a => { a with parent := v })

/-- `Beachline::set_prev`. -/
def set_prev (bl : Beachline) (i : Nat) (v : Option Nat) : Beachline :=
  bl.updArc i (fun a => { a with prev := v })

/-- `Beachline::set_next`. -/
def set_next (bl : Beachline) (i : Nat) (v : Option Nat) : Beachline :=
  bl.updArc i (fun a => { a with next := v })

/-- `Beachline::set_color`. -/
def set_color (bl : Beachline) (i : Nat) (v : Color) : Beachline :=
  bl.updArc i (fun a => { a with color := v })

/-- `Beachline::set_left_half_edge`. -/
def set_left_half_edge (bl : Beachline) (i : Nat) (v : Option Nat) : Beachline :=
  bl.updArc i (fun a => { a with left_half_edge := v })

/-- `Beachline::set_right_half_edge`. -/
def set_right_half_edge (bl : Beachline) (i : Nat) (v : Option Nat) : Beachline :=
  bl.updArc i (fun a => { a with right_half_edge := v })

/-- `Beachline::set_arc_event`. -/
def set_arc_event (bl : Beachline) (i : Nat) (v : Option Nat) : Beachline :=
  bl.updArc i (fun a => { a with event := v })

/-- `Beachline::get_leftmost_arc`: walk `left` links (fuelled loop). -/
def get_leftmost_arc (bl : Beachline) : Nat → Nat → Except Panic Nat
  | 0, _ => Except.error Panic.outOfFuel
  | fuel + 1, current => do
    let lo ← lift (bl.get_left current)
    match lo with
    | none => pure current
    | some l => bl.get_leftmost_arc fuel l

/-- `Beachline::transplant`: replace `old_arc` by `new_arc` in its parent (or
at the root) and update the new arc's parent pointer. -/
def transplant (bl : Beachline) (old_arc : Nat) (new_arc : Option Nat) :
    Except Panic Beachline := do
  let po ← lift (bl.get_parent old_arc)
  let bl1 ← match po with
    | none => pure { bl with root := new_arc }
    | some par => do
      let pl ← lift (bl.get_left par)
      if pl = some old_arc then pure (bl.set_left par new_arc)
      else pure (bl.set_right par new_arc)
  match new_arc with
  | some n => pure (bl1.set_parent n po)
  | none => pure bl1

/-- `Beachline::replace`: swap `new_arc` into `old_arc`'s tree position,
in-order links and color. -/
def replace (bl : Beachline) (old_arc new_arc : Nat) : Except Panic Beachline := do
  let bl1 ← bl.transplant old_arc (some new_arc)
  let lo ← lift (bl1.get_left old_arc)
  let bl2 := bl1.set_left new_arc lo
  let bl3 := match lo with
    | some l => bl2.set_parent l (some new_arc)
    | none => bl2
  let ro ← lift (bl3.get_right old_arc)
  let bl4 := bl3.set_right new_arc ro
  let bl5 := match ro with
    | some r => bl4.set_parent r (some new_arc)
    | none => bl4
  let po ← lift (bl5.get_prev old_arc)
  let bl6 := bl5.set_prev new_arc po
  let bl7 := match po with
    | some p => bl6.set_next p (some new_arc)
    | none => bl6
  let no ← lift (bl7.get_next old_arc)
  let bl8 := bl7.set_next new_arc no
  let bl9 := match no with
    | some n => bl8.set_prev n (some new_arc)
    | none => bl8
  let c ← lift (bl9.get_color old_arc)
  pure (bl9.set_color new_arc c)

/-- `Beachline::insert_before` (lines 234–252): hang the new arc off the
tree at the in-order position just before `existing_arc`, splice the
prev/next chain, and — as in the source — perform no rebalancing (the
`insertFixup` call is commented out). -/
def insert_before (bl : Beachline) (existing_arc new_arc : Nat) :
    Except Panic Beachline := do
  let epo ← lift (bl.get_prev existing_arc)
  let lo ← lift (bl.get_left existing_arc)
  let bl1 ← match lo with
    | none => pure ((bl.set_left existing_arc (some new_arc)).set_parent
        new_arc (some existing_arc))
    | some _ => do
      let ep ← lift epo
      pure ((bl.set_right ep (some new_arc)).set_parent new_arc epo)
  let bl2 := bl1.set_prev new_arc epo
  let bl3 := match epo with
    | some p => bl2.set_next p (some new_arc)
    | none => bl2
  let bl4 := bl3.set_next new_arc (some existing_arc)
  pure (bl4.set_prev existing_arc (some new_arc))

/-- `Beachline::insert_after` (lines 254–274): symmetric to
`insert_before`; no rebalancing either. -/
def insert_after (bl : Beachline) (existing_arc new_arc : Nat) :
    Except Panic Beachline := do
  let eno ← lift (bl.get_next existing_arc)
  let ro ← lift (bl.get_right existing_arc)
  let bl1 ← match ro with
    | none => pure ((bl.set_right existing_arc (some new_arc)).set_parent
        new_arc (some existing_arc))
    | some _ => do
      let en ← lift eno
      pure ((bl.set_left en (some new_arc)).set_parent new_arc eno)
  let bl2 := bl1.set_next new_arc eno
  let no ← lift (bl2.get_next new_arc)
  let bl3 := match no with
    | some n => bl2.set_prev n (some new_arc)
    | none => bl2
  let bl4 := bl3.set_prev new_arc (some existing_arc)
  pure (bl4.set_next existing_arc (some new_arc))

/-- `Beachline::remove_arc` (lines 276–313): plain BST deletion (replace by
the leftmost arc of the right subtree when both children exist), splice the
prev/next chain, drop the arena entry; the `TODO check if tree need
rebalancing` is absent in the source. -/
def remove_arc (bl : Beachline) (arc : Nat) : Except Panic Beachline := do
  let lo ← lift (bl.get_left arc)
  let ro ← lift (bl.get_right arc)
  let c ← lift (bl.get_color arc)
  let bl1 ← match lo, ro with
    | none, _ => bl.transplant arc ro
    | some _, none => bl.transplant arc lo
    | some l, some r => do
      let minimum ← bl.get_leftmost_arc (bl.arcs.length + 1) r
      let mpo ← lift (bl.get_parent minimum)
      let mro ← lift (bl.get_right minimum)
      let mp ← lift mpo
      let bl1 ← if mp ≠ arc then do
          let bla ← bl.transplant minimum mro
          let blb := bla.set_right minimum (some r)
          pure (blb.set_parent r (some minimum))
        else pure bl
      let bl2 ← bl1.transplant arc (some minimum)
      let bl3 := bl2.set_left minimum (some l)
      let bl4 := bl3.set_parent l (some minimum)
      pure (bl4.set_color minimum c)
  let po ← lift (bl1.get_prev arc)
  let no ← lift (bl1.get_next arc)
  let bl2 := match po with
    | some p => bl1.set_next p no
    | none => bl1
  let bl3 := match no with
    | some n => bl2.set_prev n po
    | none => bl2
  pure (bl3.remove_arc_entry arc)

/-- `Beachline::locate_arc_above` (lines 81–141): descend from the root.
At an arc whose focus is exactly on the sweep line, branch on x — equal x
is the `Two sites located at the same point` panic (`DuplicateSite`).
Otherwise compare against the breakpoints with the neighbouring arcs; a
missing neighbour stands for the `±∞` breakpoint, against which the
comparison is always false. -/
def locate_arc_above (sqrt : ℚ → ℚ) (bl : Beachline) (point : Vector2) (y : ℚ)
    (v : Voronoi) : Nat → Nat → Except Panic Nat
  | 0, _ => Except.error Panic.outOfFuel
  | fuel + 1, current => do
    let so ← lift (bl.get_site current)
    let site ← lift so
    let focus ← lift (v.get_site_point site)
    if focus.y = y then
      if point.x < focus.x then do
        let lo ← lift (bl.get_left current)
        let l ← lift lo
        locate_arc_above sqrt bl point y v fuel l
      else if focus.x < point.x then do
        let ro ← lift (bl.get_right current)
        let r ← lift ro
        locate_arc_above sqrt bl point y v fuel r
      else Except.error Panic.duplicateSite
    else do
      let po ← lift (bl.get_prev current)
      let no ← lift (bl.get_next current)
      let breakpoint_left ← match po with
        | some p => do
          let pso ← lift (bl.get_site p)
          let ps ← lift pso
          let pp ← lift (v.get_site_point ps)
          let sp ← lift (v.get_site_point site)
          pure (some (compute_breakpoint sqrt pp sp y))
        | none => pure none
      let breakpoint_right ← match no with
        | some n => do
          let nso ← lift (bl.get_site n)
          let ns ← lift nso
          let np ← lift (v.get_site_point ns)
          let sp ← lift (v.get_site_point site)
          pure (some (compute_breakpoint sqrt sp np y))
        | none => pure none
      if h : ∃ b, breakpoint_left = some b ∧ point.x < b then do
        let lo ← lift (bl.get_left current)
        let l ← lift lo
        locate_arc_above sqrt bl point y v fuel l
      else if h : ∃ b, breakpoint_right = some b ∧ b < point.x then do
        let ro ← lift (bl.get_right current)
        let r ← lift ro
        locate_arc_above sqrt bl point y v fuel r
      else pure current

/-- `Beachline::break_arc` (lines 143–164). -/
def break_arc (bl : Beachline) (arc new_site : Nat) :
    Except Panic (Nat × Beachline) := do
  let aso ← lift (bl.get_site arc)
  let arc_site ← lift aso
  let m := bl.insert_arc (Arc.new new_site)
  let l := m.2.insert_arc (Arc.new arc_site)
  let lho ← lift (l.2.get_left_half_edge arc)
  let bl3 := l.2.set_left_half_edge l.1 lho
  let r := bl3.insert_arc (Arc.new arc_site)
  let rho ← lift (r.2.get_right_half_edge arc)
  let bl5 := r.2.set_right_half_edge r.1 rho
  let bl6 ← bl5.replace arc m.1
  let bl7 ← bl6.insert_before m.1 l.1
  let bl8 ← bl7.insert_after m.1 r.1
  pure (m.1, bl8.remove_arc_entry arc)

end Beachline

/-! ## The sweep driver (`lib.rs`) -/

/-- `f64::EPSILON` = 2⁻⁵². -/
def F64_EPSILON : ℚ := 1 / 2 ^ 52

/-- `Vector2::get_norm`, with `f64::sqrt` explicit. -/
def Vector2.get_norm (sqrt : ℚ → ℚ) (a : Vector2) : ℚ :=
  sqrt (a.x ^ 2 + a.y ^ 2)

/-- `Vector2::get_distance`. -/
def Vector2.get_distance (sqrt : ℚ → ℚ) (a b : Vector2) : ℚ :=
  (a.sub b).get_norm sqrt

/-- `lib.rs`, `is_moving_right`: a breakpoint moves rightward when the
earlier (higher on screen, smaller y is earlier — here: larger y) site is on
the left.  Verbatim: `left.y > right.y`. -/
def is_moving_right (left right : Vector2) : Bool :=
  decide (right.y < left.y)

/-- `lib.rs`, `get_initial_x`. -/
def get_initial_x (left right : Vector2) (moving_right : Bool) : ℚ :=
  if moving_right then left.x else right.x

/-- `lib.rs`, `delete_event`: upgrade the arc's stored weak handle; remove
the event at its recorded index if live, do nothing if stale. -/
def delete_event (arc : Nat) (beachline : Beachline) (event_queue : EventQueue) :
    Except Panic EventQueue := do
  let weak ← lift (beachline.get_arc_event arc)
  match weak with
  | some id => pure (remove_by_handle event_queue id)
  | none => pure event_queue

/-- `lib.rs`, `add_event` (lines 147–217): compute the circumcircle of the
three arcs' sites, reject events behind the sweep line (with the
`f64::EPSILON` slack), check the breakpoint-direction validity predicate,
and if valid push a circle event and store its handle on the middle arc. -/
def add_event (sqrt : ℚ → ℚ) (left_arc middle_arc right_arc : Nat) (v : Voronoi)
    (bl : Beachline) (current_y : ℚ) (eq : EventQueue) :
    Except Panic (Beachline × EventQueue) := do
  let lso ← lift (bl.get_site left_arc)
  let ls ← lift lso
  let left_point ← lift (v.get_site_point ls)
  let mso ← lift (bl.get_site middle_arc)
  let ms ← lift mso
  let middle_point ← lift (v.get_site_point ms)
  let rso ← lift (bl.get_site right_arc)
  let rs ← lift rso
  let right_point ← lift (v.get_site_point rs)
  let center := compute_circumcircle_center left_point middle_point right_point
  let radius := center.get_distance sqrt middle_point
  let event_y := center.y + radius
  if current_y - F64_EPSILON < event_y then
    let left_breakpoint_moving_right := is_moving_right left_point middle_point
    let right_breakpoint_moving_right := is_moving_right middle_point right_point
    let left_initial_x := get_initial_x left_point middle_point
      left_breakpoint_moving_right
    let right_initial_x := get_initial_x middle_point right_point
      right_breakpoint_moving_right
    let is_valid :=
      ((left_breakpoint_moving_right ∧ left_initial_x ≤ center.x)
        ∨ (¬ left_breakpoint_moving_right ∧ center.x ≤ left_initial_x))
      ∧ ((right_breakpoint_moving_right ∧ right_initial_x ≤ center.x)
        ∨ (¬ right_breakpoint_moving_right ∧ center.x ≤ right_initial_x))
    if is_valid then
      let r := eq.add_circle_event event_y center middle_arc
      pure (bl.set_arc_event middle_arc (some r.1), r.2)
    else pure (bl, eq)
  else pure (bl, eq)

/-- `lib.rs`, `handle_site_event` (lines 61–134). -/
def handle_site_event (sqrt : ℚ → ℚ) (site : Nat) (v : Voronoi) (bl : Beachline)
    (current_y : ℚ) (eq : EventQueue) :
    Except Panic (Voronoi × Beachline × EventQueue) := do
  let _point ← lift (v.get_site_point site)
  if ¬ bl.has_root then
    pure (v, bl.create_root site, eq)
  else do
    let site_point ← lift (v.get_site_point site)
    let arc_to_break ← Beachline.locate_arc_above sqrt bl site_point current_y v
      (bl.arcs.length + 1) (← lift bl.root)
    let eq1 ← delete_event arc_to_break bl eq
    let mb ← bl.break_arc arc_to_break site
    let lao ← lift (mb.2.get_prev mb.1)
    let left_arc ← lift lao
    let rao ← lift (mb.2.get_next mb.1)
    let right_arc ← lift rao
    let lso ← lift (mb.2.get_site left_arc)
    let ls ← lift lso
    let mso ← lift (mb.2.get_site mb.1)
    let ms ← lift mso
    let he ← v.add_edge ls ms
    let bl2 := mb.2.set_right_half_edge left_arc (some he.1)
    let bl3 := bl2.set_left_half_edge mb.1 (some he.2.1)
    let bl4 := bl3.set_right_half_edge mb.1 (some he.2.1)
    let bl5 := bl4.set_left_half_edge right_arc (some he.1)
    let po ← lift (bl5.get_prev left_arc)
    let be1 ← match po with
      | some prev_arc =>
        add_event sqrt prev_arc left_arc mb.1 he.2.2 bl5 current_y eq1
      | none => pure (bl5, eq1)
    let no ← lift (be1.1.get_next right_arc)
    let be2 ← match no with
      | some next_arc =>
        add_event sqrt mb.1 right_arc next_arc he.2.2 be1.1 current_y be1.2
      | none => pure be1
    pure (he.2.2, be2.1, be2.2)

/-- `lib.rs`, `remove_arc` (lines 281–316): end the four incident
half-edges at the new vertex, link the middle arc's half-edges, open a new
edge between the outer arcs, and delete the arc from the beachline. -/
def remove_arc (arc vertex : Nat) (v : Voronoi) (bl : Beachline) :
    Except Panic (Voronoi × Beachline) := do
  let po ← lift (bl.get_prev arc)
  let prev ← lift po
  let no ← lift (bl.get_next arc)
  let next ← lift no
  let lho ← lift (bl.get_left_half_edge arc)
  let left_half_edge ← lift lho
  let rho ← lift (bl.get_right_half_edge arc)
  let right_half_edge ← lift rho
  let prho ← lift (bl.get_right_half_edge prev)
  let prev_right_half_edge ← lift prho
  let nlho ← lift (bl.get_left_half_edge next)
  let next_left_half_edge ← lift nlho
  let v1 := v.set_half_edge_origin prev_right_half_edge (some vertex)
  let v2 := v1.set_half_edge_destination left_half_edge (some vertex)
  let v3 := v2.set_half_edge_origin right_half_edge (some vertex)
  let v4 := v3.set_half_edge_destination next_left_half_edge (some vertex)
  let v5 := v4.set_half_edge_next left_half_edge (some right_half_edge)
  let v6 := v5.set_half_edge_prev right_half_edge (some left_half_edge)
  let pso ← lift (bl.get_site prev)
  let ps ← lift pso
  let nso ← lift (bl.get_site next)
  let ns ← lift nso
  let he ← v6.add_edge ps ns
  let bl1 := bl.set_right_half_edge prev (some he.1)
  let bl2 := bl1.set_left_half_edge next (some he.2.1)
  let v8 := he.2.2.set_half_edge_destination he.1 (some vertex)
  let v9 := v8.set_half_edge_origin he.2.1 (some vertex)
  let v10 := v9.set_half_edge_next prev_right_half_edge (some he.1)
  let v11 := v10.set_half_edge_prev he.1 (some prev_right_half_edge)
  let v12 := v11.set_half_edge_next he.2.1 (some next_left_half_edge)
  let v13 := v12.set_half_edge_prev next_left_half_edge (some he.2.1)
  let bl3 ← bl2.remove_arc arc
  pure (v13, bl3)

/-- `lib.rs`, `handle_circle_event` (lines 219–268). -/
def handle_circle_event (sqrt : ℚ → ℚ) (point : Vector2) (arc : Nat)
    (v : Voronoi) (bl : Beachline) (y : ℚ) (eq : EventQueue) :
    Except Panic (Voronoi × Beachline × EventQueue) := do
  let vert := v.create_vertex point
  let lo ← lift (bl.get_prev arc)
  let left_arc ← lift lo
  let ro ← lift (bl.get_next arc)
  let right_arc ← lift ro
  let eq1 ← delete_event left_arc bl eq
  let eq2 ← delete_event right_arc bl eq1
  let vb ← remove_arc arc vert.1 vert.2 bl
  let lpo ← lift (vb.2.get_prev left_arc)
  let be1 ← match lpo with
    | some left_arc_prev =>
      add_event sqrt left_arc_prev left_arc right_arc vb.1 vb.2 y eq2
    | none => pure (vb.2, eq2)
  let rno ← lift (be1.1.get_next right_arc)
  let be2 ← match rno with
    | some right_arc_next =>
      add_event sqrt left_arc right_arc right_arc_next vb.1 be1.1 y be1.2
    | none => pure be1
  pure (vb.1, be2.1, be2.2)

/-- `lib.rs`, `handle_event`. -/
def handle_event (sqrt : ℚ → ℚ) (event_type : EventType) (v : Voronoi)
    (bl : Beachline) (current_y : ℚ) (eq : EventQueue) :
    Except Panic (Voronoi × Beachline × EventQueue) :=
  match event_type with
  | EventType.site face => handle_site_event sqrt face v bl current_y eq
  | EventType.circle point arc => handle_circle_event sqrt point arc v bl current_y eq

/-- The main loop of `generate_diagram`: pop until the queue is empty
(fuelled; every theorem below supplies enough fuel). -/
def event_loop (sqrt : ℚ → ℚ) : Nat → Voronoi → Beachline → EventQueue →
    Except Panic Voronoi
  | 0, _, _, _ => Except.error Panic.outOfFuel
  | fuel + 1, v, bl, eq =>
    match eq.pop with
    | (none, _) => pure v
    | (some event, eq1) => do
      let s ← handle_event sqrt event.event_type v bl event.y eq1
      event_loop sqrt fuel s.1 s.2.1 s.2.2

/-- `lib.rs`, `generate_diagram` (lines 16–42): create the DCEL with one
face per point, seed one site event per site in insertion order, then run
the event loop. -/
def generate_diagram (sqrt : ℚ → ℚ) (fuel : Nat) (points : List Vector2) :
    Except Panic Voronoi :=
  let voronoi := Voronoi.new points
  let event_queue := (List.range voronoi.sites.length).foldl
    (fun eq site_index =>
      match voronoi.get_site_point site_index with
      | some p => (eq.add_site_event p.y site_index).2
      | none => eq)
    EventQueue.new
  event_loop sqrt fuel voronoi Beachline.new event_queue

/-! ## Red-black invariant checkers for the beachline tree -/

/-- Whether the arc referenced by an optional id is red (missing arcs and
absent children count as black, as in a red-black tree's nil leaves). -/
def isRed (bl : Beachline) : Option Nat → Bool
  | none => false
  | some i =>
    match bl.getArc i with
    | some a => match a.color with | Color.red => true | Color.black => false
    | none => false

/-- First red-black invariant: no red arc has a red child (fuelled
traversal of the arena-backed tree). -/
def redRedFree (bl : Beachline) : Nat → Option Nat → Bool
  | _, none => true
  | 0, some _ => false
  | fuel + 1, some i =>
    match bl.getArc i with
    | none => true
    | some a =>
      (!(isRed bl (some i)) || (!(isRed bl a.left) && !(isRed bl a.right)))
        && redRedFree bl fuel a.left && redRedFree bl fuel a.right

/-- Black height of a subtree: `some h` when every path from the node to a
missing child passes `h` black arcs, `none` when two paths disagree (the
second red-black invariant fails) or the fuel runs out. -/
def blackHeight (bl : Beachline) : Nat → Option Nat → Option Nat
  | _, none => some 0
  | 0, some _ => none
  | fuel + 1, some i =>
    match bl.getArc i with
    | none => none
    | some a =>
      match blackHeight bl fuel a.left, blackHeight bl fuel a.right with
      | some l, some r =>
        if l = r then
          some (l + match a.color with | Color.black => 1 | Color.red => 0)
        else none
      | _, _ => none

/-- Both red-black balance invariants of the tree rooted at `bl.root`. -/
def rbValid (bl : Beachline) (fuel : Nat) : Bool :=
  redRedFree bl fuel bl.root && (blackHeight bl fuel bl.root).isSome

/-- A beachline holding a single (black) root arc. -/
def rbDemo0 : Beachline := Beachline.new.create_root 0

/-- Insert one arc before the root: `Arc::new` colours it red, and
`insert_before` hangs it as the root's left child without rebalancing. -/
def rbDemo1 : Except Panic Beachline :=
  let m := rbDemo0.insert_arc (Arc.new 1)
  m.2.insert_before 0 m.1

/-- Insert a second arc before the first inserted one: it becomes the red
left child of a red arc. -/
def rbDemo2 : Except Panic Beachline := do
  let b1 ← rbDemo1
  let m := b1.insert_arc (Arc.new 2)
  m.2.insert_before 1 m.1

/-- A valid red-black beachline: black root (arc 0) with two black
children (arcs 1 and 2), in-order chain 1, 0, 2. -/
def rbDemo3 : Beachline :=
  ⟨[(0, ⟨none, some 1, some 2, some 0, none, none, some 1, some 2, none,
        Color.black⟩),
    (1, ⟨some 0, none, none, some 1, none, none, none, some 0, none,
        Color.black⟩),
    (2, ⟨some 0, none, none, some 2, none, none, some 0, none, none,
        Color.black⟩)],
    3, some 0⟩

/-- Remove a black leaf from `rbDemo3`: plain BST deletion with no
rebalancing. -/
def rbDemo4 : Except Panic Beachline := rbDemo3.remove_arc 1


/-! ## The slotmap-backed DCEL of `diagram.rs`

Used by the bounding-box clipping stage.  Slotmap keys are modelled by
never-reused natural numbers (a slotmap's versioned keys never compare
equal to the key of a removed entry); `get_mut` on a missing key is a
panic in the source, the corresponding setters leave the state unchanged
and every call in the repository is on a live entry. -/

/-- `diagram.rs`, `struct Vertex`. -/
structure DiagVertex where
  point : Vector2
  deriving DecidableEq, Repr

/-- `diagram.rs`, `struct HalfEdge`. -/
structure DiagHalfEdge where
  origin : Option Nat
  destination : Option Nat
  incident_face : Option Nat
  twin : Option Nat
  prev : Option Nat
  next : Option Nat
  deriving DecidableEq, Repr

/-- `diagram.rs`, `HalfEdge::new`. -/
def DiagHalfEdge.new (incident_face : Nat) : DiagHalfEdge :=
  ⟨none, none, some incident_face, none, none, none⟩

/-- `diagram.rs`, `struct Face`. -/
structure DiagFace where
  point : Vector2
  outer_component : Option Nat
  deriving DecidableEq, Repr

/-- `diagram.rs`, `struct Diagram`. -/
structure Diagram where
  faces : List (Nat × DiagFace)
  vertices : List (Nat × DiagVertex)
  half_edges : List (Nat × DiagHalfEdge)
  next_face : Nat
  next_vertex : Nat
  next_half_edge : Nat
  deriving DecidableEq, Repr

namespace Diagram

/-- `Diagram::new`. -/
def new : Diagram := ⟨[], [], [], 0, 0, 0⟩

/-- `self.half_edges.get(half_edge)`. -/
def hlookup (d : Diagram) (k : Nat) : Option DiagHalfEdge :=
  (d.half_edges.find? (fun p => p.1 == k)).map Prod.snd

/-- `self.faces.get(face)`. -/
def flookup (d : Diagram) (k : Nat) : Option DiagFace :=
  (d.faces.find? (fun p => p.1 == k)).map Prod.snd

/-- `self.half_edges.get_mut(half_edge)` followed by a field assignment. -/
def hupd (d : Diagram) (k : Nat) (f : DiagHalfEdge → DiagHalfEdge) : Diagram :=
  { d with half_edges :=
      d.half_edges.map (fun p => if p.1 = k then (p.1, f p.2) else p) }

/-- `self.faces.get_mut(face)` followed by a field assignment. -/
def fupd (d : Diagram) (k : Nat) (f : DiagFace → DiagFace) : Diagram :=
  { d with faces := d.faces.map (fun p => if p.1 = k then (p.1, f p.2) else p) }

/-- `Diagram::add_face`. -/
def add_face (d : Diagram) (point : Vector2) : Diagram :=
  { d with faces := d.faces ++ [(d.next_face, ⟨point, none⟩)],
           next_face := d.next_face + 1 }

/-- `Diagram::get_face_outer_component` (outer `Option` is the arena
access, a panic when missing). -/
def get_face_outer_component (d : Diagram) (face : Nat) :
    Option (Option Nat) :=
  (d.flookup face).map DiagFace.outer_component

/-- `Diagram::set_face_outer_component`. -/
def set_face_outer_component (d : Diagram) (face : Nat)
    (half_edge : Option Nat) : Diagram :=
  d.fupd face (fun f => { f with outer_component := half_edge })

/-- `Diagram::add_half_edge`: insert a fresh half-edge knowing only its
incident face, and make it the face's outer component if the face has
none yet. -/
def add_half_edge (d : Diagram) (face : Nat) : Nat × Diagram :=
  let k := d.next_half_edge
  let d1 := { d with
    half_edges := d.half_edges ++ [(k, DiagHalfEdge.new face)],
    next_half_edge := k + 1 }
  match d1.get_face_outer_component face with
  | some none => (k, d1.set_face_outer_component face (some k))
  | _ => (k, d1)

/-- `Diagram::set_half_edge_twin` (private in the source). -/
def set_half_edge_twin (d : Diagram) (he : Nat) (twin : Option Nat) :
    Diagram :=
  d.hupd he (fun e => { e with twin := twin })

/-- `Diagram::add_edge` (lines 206–218): two fresh half-edges, one per
face, twinned with each other. -/
def add_edge (d : Diagram) (left_face right_face : Nat) :
    (Nat × Nat) × Diagram :=
  let r1 := d.add_half_edge left_face
  let r2 := r1.2.add_half_edge right_face
  let d3 := r2.2.set_half_edge_twin r1.1 (some r2.1)
  let d4 := d3.set_half_edge_twin r2.1 (some r1.1)
  ((r1.1, r2.1), d4)

/-- `Diagram::remove_half_edge`. -/
def remove_half_edge (d : Diagram) (he : Nat) : Diagram :=
  { d with half_edges := d.half_edges.filter (fun p => p.1 ≠ he) }

/-- `Diagram::add_vertex`. -/
def add_vertex (d : Diagram) (point : Vector2) : Nat × Diagram :=
  (d.next_vertex,
    { d with vertices := d.vertices ++ [(d.next_vertex, ⟨point⟩)],
             next_vertex := d.next_vertex + 1 })

/-- `Diagram::remove_vertex`. -/
def remove_vertex (d : Diagram) (v : Nat) : Diagram :=
  { d with vertices := d.vertices.filter (fun p => p.1 ≠ v) }

/-- `Diagram::set_half_edge_prev`. -/
def set_half_edge_prev (d : Diagram) (he : Nat) (prev : Option Nat) :
    Diagram :=
  d.hupd he (fun e => { e with prev := prev })

/-- `Diagram::set_half_edge_next`. -/
def set_half_edge_next (d : Diagram) (he : Nat) (next : Option Nat) :
    Diagram :=
  d.hupd he (fun e => { e with next := next })

/-- `Diagram::link_half_edges`. -/
def link_half_edges (d : Diagram) (prev next : Nat) : Diagram :=
  (d.set_half_edge_prev next (some prev)).set_half_edge_next prev (some next)

/-- `Diagram::set_half_edge_origin`. -/
def set_half_edge_origin (d : Diagram) (he : Nat) (origin : Option Nat) :
    Diagram :=
  d.hupd he (fun e => { e with origin := origin })

/-- `Diagram::set_half_edge_destination`. -/
def set_half_edge_destination (d : Diagram) (he : Nat)
    (destination : Option Nat) : Diagram :=
  d.hupd he (fun e => { e with destination := destination })

/-- `Diagram::get_half_edge_twin`. -/
def get_half_edge_twin (d : Diagram) (he : Nat) : Option (Option Nat) :=
  (d.hlookup he).map DiagHalfEdge.twin

end Diagram

/-- The DCEL twin invariant: a set twin pointer is never self-referential
and its target is a live half-edge pointing back. -/
def TwinOK (d : Diagram) : Prop :=
  ∀ p ∈ d.half_edges, ∀ t : Nat, (p : Nat × DiagHalfEdge).2.twin = some t →
    t ≠ p.1 ∧ ∃ q ∈ d.half_edges, q.1 = t ∧ q.2.twin = some p.1

/-- Every stored half-edge key has been allocated (true of every reachable
diagram; keys are handed out by the `next_half_edge` counter). -/
def HKeysOK (d : Diagram) : Prop :=
  ∀ p ∈ d.half_edges, (p : Nat × DiagHalfEdge).1 < d.next_half_edge

/-- Two faces and no half-edges yet. -/
def twinDemo0 : Diagram := (Diagram.new.add_face ⟨0, 0⟩).add_face ⟨1, 0⟩

/-- Two faces and a twinned pair of half-edges between them. -/
def twinDemo1 : (Nat × Nat) × Diagram := twinDemo0.add_edge 0 1

/-- Removing one half of the pair leaves the survivor's twin pointer
dangling. -/
def twinDemo2 : Diagram := twinDemo1.2.remove_half_edge twinDemo1.1.1

end Fortunes

namespace Fortunes

/-- C1: the claim says `compute_breakpoint` returns `p2.x` when `p2.y = y`
(third special case of the spec's formula).  The source instead returns
`p2.y` (`beachline.rs` line 477).  At the foci `p1 = (0.5, 0.2)`,
`p2 = (0.6, 0.5)` and sweep position `y = 0.5` — an input taken from the
repository's own unit test — the code yields `0.5 = p2.y`, whatever value
`f64::sqrt` takes, while the spec's formula yields `0.6 = p2.x`; the two
disagree.  (Geometrically the parabola of `p2` degenerates to the vertical
line `x = p2.x`, so the spec's value is the correct meeting abscissa.) -/
theorem compute_breakpoint_returns_p2y_not_p2x :
    ∀ sqrt : ℚ → ℚ,
      compute_breakpoint sqrt ⟨1/2, 1/5⟩ ⟨3/5, 1/2⟩ (1/2) = 1/2
      ∧ breakpoint_spec sqrt ⟨1/2, 1/5⟩ ⟨3/5, 1/2⟩ (1/2) = 3/5
      ∧ (1/2 : ℚ) ≠ 3/5 := by
  intro sqrt
  refine ⟨?_, ?_, by norm_num⟩ <;>
    simp only [compute_breakpoint, breakpoint_spec] <;> norm_num

/-- C3 counterexample: on the unit box with interior origin `(1/2, 1/2)` and
direction `(1, 0)`, `get_intersection` returns the point `(0, 1/2)` labelled
`Left` — the hit *behind* the ray.  No parameter `t ≥ 0` writes that returned
point as `origin + direction·t`, so the returned point is not the first (nor
any) boundary hit along the forward ray, contradicting the claim; the forward
first hit would be `(1, 1/2)` on the `Right` side. -/
theorem get_intersection_is_backwards :
    (BoundingBox.get_intersection ⟨0, 1, 0, 1⟩ ⟨1/2, 1/2⟩ ⟨1, 0⟩
        = (⟨0, 1/2⟩, Side.left))
    ∧ ¬ ∃ t : ℚ, 0 ≤ t ∧
        (⟨0, 1/2⟩ : Vector2) = Vector2.add ⟨1/2, 1/2⟩ (Vector2.mul ⟨1, 0⟩ t) := by
  constructor
  · norm_num [BoundingBox.get_intersection, F64_MIN, F64_MAX, Vector2.add,
      Vector2.mul, abs_of_nonneg, abs_of_nonpos]
  · rintro ⟨t, ht, heq⟩
    have hx : (0 : ℚ) = 1/2 + 1 * t := congrArg Vector2.x heq
    linarith

/-- Along the backward segment: with a negative slope `d` and exit parameter
`t1` against the upper bound `hi`, every `s ∈ [t1, 0]` keeps `o + d·s` within
`[lo, hi]`. -/
lemma seg_bounds_neg {d t1 s o lo hi : ℚ} (hd : d < 0) (he : d * t1 = hi - o)
    (hlo : lo ≤ o) (hs1 : t1 ≤ s) (hs0 : s ≤ 0) :
    lo ≤ o + d * s ∧ o + d * s ≤ hi :=
  ⟨by nlinarith, by nlinarith⟩

/-- Along the backward segment: with a positive slope `d` and exit parameter
`t1` against the lower bound `lo`, every `s ∈ [t1, 0]` keeps `o + d·s` within
`[lo, hi]`. -/
lemma seg_bounds_pos {d t1 s o lo hi : ℚ} (hd : 0 < d) (he : d * t1 = lo - o)
    (hhi : o ≤ hi) (hs1 : t1 ≤ s) (hs0 : s ≤ 0) :
    lo ≤ o + d * s ∧ o + d * s ≤ hi :=
  ⟨by nlinarith, by nlinarith⟩

/-- C3 amended: with origin inside the box and a nonzero direction (and, when
the direction is axis-parallel, a box not astronomically larger than the
`f64::MIN`/`f64::MAX` sentinels allow), `get_intersection` returns the first
boundary hit of the ray from `origin` in direction `−direction`: the returned
point is `origin + direction·t` for some `t ≤ 0`, the whole segment from the
origin back to the hit stays inside the box, the hit is on the box boundary,
and the returned side is the boundary side containing the hit. -/
theorem get_intersection_first_backward_hit (b : BoundingBox)
    (origin direction : Vector2)
    (hc : b.contains origin)
    (hdir : direction.x ≠ 0 ∨ direction.y ≠ 0)
    (hx0 : direction.x = 0 → b.bottom - b.top < F64_MAX * |direction.y|)
    (hy0 : direction.y = 0 → b.right - b.left < F64_MAX * |direction.x|) :
    ∃ t : ℚ, t ≤ 0
      ∧ (b.get_intersection origin direction).1 = origin.add (direction.mul t)
      ∧ (∀ s : ℚ, t ≤ s → s ≤ 0 → b.contains (origin.add (direction.mul s)))
      ∧ b.onSide (b.get_intersection origin direction).2
          (b.get_intersection origin direction).1 := by
  obtain ⟨hcl, hcr, hct, hcb⟩ := hc
  have hFM : (0 : ℚ) < F64_MAX := by norm_num [F64_MAX]
  have habsmin : |F64_MIN| = F64_MAX := by
    have h0 : F64_MIN ≤ 0 := by norm_num [F64_MIN]
    rw [abs_of_nonpos h0, F64_MIN, F64_MAX]; ring
  have habsmax : |F64_MAX| = F64_MAX := abs_of_nonneg hFM.le
  rcases lt_trichotomy direction.x 0 with hdx | hdx | hdx
  · -- direction.x < 0 : vertical candidate is the Right side
    have hdx0 : direction.x ≠ 0 := ne_of_lt hdx
    have he1 : direction.x * ((b.right - origin.x) / direction.x)
        = b.right - origin.x := by field_simp
    have ht1 : (b.right - origin.x) / direction.x ≤ 0 := by
      rw [div_nonpos_iff]; exact Or.inl ⟨by linarith, hdx.le⟩
    rcases lt_trichotomy direction.y 0 with hdy | hdy | hdy
    · -- direction.y < 0 : horizontal candidate is the Bottom side
      have hdy0 : direction.y ≠ 0 := ne_of_lt hdy
      have ny1 : ¬ (0 < direction.y) := not_lt.mpr hdy.le
      have he2 : direction.y * ((b.bottom - origin.y) / direction.y)
          = b.bottom - origin.y := by field_simp
      have ht2 : (b.bottom - origin.y) / direction.y ≤ 0 := by
        rw [div_nonpos_iff]; exact Or.inl ⟨by linarith, hdy.le⟩
      by_cases hcmp : |(b.bottom - origin.y) / direction.y|
          < |(b.right - origin.x) / direction.x|
      · -- bottom chosen
        have hgi : b.get_intersection origin direction
            = (origin.add (direction.mul ((b.bottom - origin.y) / direction.y)),
                Side.bottom) := by
          simp only [BoundingBox.get_intersection, hdx, hdy, ny1, hcmp,
            if_true, if_false, ite_true, ite_false]
        have hlt := hcmp
        rw [abs_of_nonpos ht2, abs_of_nonpos ht1, neg_lt_neg_iff] at hlt
        have hXC : ∀ s : ℚ, (b.bottom - origin.y) / direction.y ≤ s → s ≤ 0 →
            b.left ≤ origin.x + direction.x * s
              ∧ origin.x + direction.x * s ≤ b.right :=
          fun s hs1 hs0 => seg_bounds_neg hdx he1 hcl (hlt.le.trans hs1) hs0
        have hYC : ∀ s : ℚ, (b.bottom - origin.y) / direction.y ≤ s → s ≤ 0 →
            b.top ≤ origin.y + direction.y * s
              ∧ origin.y + direction.y * s ≤ b.bottom :=
          fun s hs1 hs0 => seg_bounds_neg hdy he2 hct hs1 hs0
        rw [hgi]
        refine ⟨(b.bottom - origin.y) / direction.y, ht2, rfl, ?_, ?_⟩
        · intro s hs1 hs0
          have h1 := hXC s hs1 hs0
          have h2 := hYC s hs1 hs0
          simp only [BoundingBox.contains, Vector2.add, Vector2.mul]
          exact ⟨h1.1, h1.2, h2.1, h2.2⟩
        · have h1 := hXC _ le_rfl ht2
          simp only [BoundingBox.onSide, Vector2.add, Vector2.mul]
          exact ⟨by linarith, h1.1, h1.2⟩
      · -- right chosen
        have hgi : b.get_intersection origin direction
            = (origin.add (direction.mul ((b.right - origin.x) / direction.x)),
                Side.right) := by
          simp only [BoundingBox.get_intersection, hdx, hdy, ny1, hcmp,
            if_true, if_false, ite_true, ite_false]
        have hle := not_lt.mp hcmp
        rw [abs_of_nonpos ht2, abs_of_nonpos ht1, neg_le_neg_iff] at hle
        have hXC : ∀ s : ℚ, (b.right - origin.x) / direction.x ≤ s → s ≤ 0 →
            b.left ≤ origin.x + direction.x * s
              ∧ origin.x + direction.x * s ≤ b.right :=
          fun s hs1 hs0 => seg_bounds_neg hdx he1 hcl hs1 hs0
        have hYC : ∀ s : ℚ, (b.right - origin.x) / direction.x ≤ s → s ≤ 0 →
            b.top ≤ origin.y + direction.y * s
              ∧ origin.y + direction.y * s ≤ b.bottom :=
          fun s hs1 hs0 => seg_bounds_neg hdy he2 hct (hle.trans hs1) hs0
        rw [hgi]
        refine ⟨(b.right - origin.x) / direction.x, ht1, rfl, ?_, ?_⟩
        · intro s hs1 hs0
          have h1 := hXC s hs1 hs0
          have h2 := hYC s hs1 hs0
          simp only [BoundingBox.contains, Vector2.add, Vector2.mul]
          exact ⟨h1.1, h1.2, h2.1, h2.2⟩
        · have h2 := hYC _ le_rfl ht1
          simp only [BoundingBox.onSide, Vector2.add, Vector2.mul]
          exact ⟨by linarith, h2.1, h2.2⟩
    · -- direction.y = 0 : sentinel, right hit forced
      have ny1 : ¬ (0 < direction.y) := by rw [hdy]; exact lt_irrefl 0
      have ny2 : ¬ (direction.y < 0) := by rw [hdy]; exact lt_irrefl 0
      have ht1bound : |(b.right - origin.x) / direction.x| < F64_MAX := by
        rw [abs_of_nonpos ht1]
        have heq : -((b.right - origin.x) / direction.x)
            = (b.right - origin.x) / (-direction.x) := (div_neg _).symm
        rw [heq, div_lt_iff (by linarith)]
        have hh := hy0 hdy
        rw [abs_of_nonpos hdx.le] at hh
        have : b.right - origin.x ≤ b.right - b.left := by linarith
        linarith
      have ncmp : ¬ (|F64_MAX| < |(b.right - origin.x) / direction.x|) := by
        rw [habsmax]; exact not_lt.mpr ht1bound.le
      have hgi : b.get_intersection origin direction
          = (origin.add (direction.mul ((b.right - origin.x) / direction.x)),
              Side.right) := by
        simp only [BoundingBox.get_intersection, hdx, ny1, ny2, ncmp,
          if_true, if_false, ite_true, ite_false]
      have hXC : ∀ s : ℚ, (b.right - origin.x) / direction.x ≤ s → s ≤ 0 →
          b.left ≤ origin.x + direction.x * s
            ∧ origin.x + direction.x * s ≤ b.right :=
        fun s hs1 hs0 => seg_bounds_neg hdx he1 hcl hs1 hs0
      have hYC : ∀ s : ℚ,
          b.top ≤ origin.y + direction.y * s
            ∧ origin.y + direction.y * s ≤ b.bottom := by
        intro s
        rw [hdy]
        constructor <;> simp <;> linarith
      rw [hgi]
      refine ⟨(b.right - origin.x) / direction.x, ht1, rfl, ?_, ?_⟩
      · intro s hs1 hs0
        have h1 := hXC s hs1 hs0
        have h2 := hYC s
        simp only [BoundingBox.contains, Vector2.add, Vector2.mul]
        exact ⟨h1.1, h1.2, h2.1, h2.2⟩
      · have h2 := hYC ((b.right - origin.x) / direction.x)
        simp only [BoundingBox.onSide, Vector2.add, Vector2.mul]
        exact ⟨by linarith, h2.1, h2.2⟩
    · -- direction.y > 0 : horizontal candidate is the Top side
      have hdy0 : direction.y ≠ 0 := ne_of_gt hdy
      have he2 : direction.y * ((b.top - origin.y) / direction.y)
          = b.top - origin.y := by field_simp
      have ht2 : (b.top - origin.y) / direction.y ≤ 0 := by
        rw [div_nonpos_iff]; exact Or.inr ⟨by linarith, hdy.le⟩
      by_cases hcmp : |(b.top - origin.y) / direction.y|
          < |(b.right - origin.x) / direction.x|
      · -- top chosen
        have hgi : b.get_intersection origin direction
            = (origin.add (direction.mul ((b.top - origin.y) / direction.y)),
                Side.top) := by
          simp only [BoundingBox.get_intersection, hdx, hdy, hcmp,
            if_true, if_false, ite_true, ite_false]
        have hlt := hcmp
        rw [abs_of_nonpos ht2, abs_of_nonpos ht1, neg_lt_neg_iff] at hlt
        have hXC : ∀ s : ℚ, (b.top - origin.y) / direction.y ≤ s → s ≤ 0 →
            b.left ≤ origin.x + direction.x * s
              ∧ origin.x + direction.x * s ≤ b.right :=
          fun s hs1 hs0 => seg_bounds_neg hdx he1 hcl (hlt.le.trans hs1) hs0
        have hYC : ∀ s : ℚ, (b.top - origin.y) / direction.y ≤ s → s ≤ 0 →
            b.top ≤ origin.y + direction.y * s
              ∧ origin.y + direction.y * s ≤ b.bottom :=
          fun s hs1 hs0 => seg_bounds_pos hdy he2 hcb hs1 hs0
        rw [hgi]
        refine ⟨(b.top - origin.y) / direction.y, ht2, rfl, ?_, ?_⟩
        · intro s hs1 hs0
          have h1 := hXC s hs1 hs0
          have h2 := hYC s hs1 hs0
          simp only [BoundingBox.contains, Vector2.add, Vector2.mul]
          exact ⟨h1.1, h1.2, h2.1, h2.2⟩
        · have h1 := hXC _ le_rfl ht2
          simp only [BoundingBox.onSide, Vector2.add, Vector2.mul]
          exact ⟨by linarith, h1.1, h1.2⟩
      · -- right chosen
        have hgi : b.get_intersection origin direction
            = (origin.add (direction.mul ((b.right - origin.x) / direction.x)),
                Side.right) := by
          simp only [BoundingBox.get_intersection, hdx, hdy, hcmp,
            if_true, if_false, ite_true, ite_false]
        have hle := not_lt.mp hcmp
        rw [abs_of_nonpos ht2, abs_of_nonpos ht1, neg_le_neg_iff] at hle
        have hXC : ∀ s : ℚ, (b.right - origin.x) / direction.x ≤ s → s ≤ 0 →
            b.left ≤ origin.x + direction.x * s
              ∧ origin.x + direction.x * s ≤ b.right :=
          fun s hs1 hs0 => seg_bounds_neg hdx he1 hcl hs1 hs0
        have hYC : ∀ s : ℚ, (b.right - origin.x) / direction.x ≤ s → s ≤ 0 →
            b.top ≤ origin.y + direction.y * s
              ∧ origin.y + direction.y * s ≤ b.bottom :=
          fun s hs1 hs0 => seg_bounds_pos hdy he2 hcb (hle.trans hs1) hs0
        rw [hgi]
        refine ⟨(b.right - origin.x) / direction.x, ht1, rfl, ?_, ?_⟩
        · intro s hs1 hs0
          have h1 := hXC s hs1 hs0
          have h2 := hYC s hs1 hs0
          simp only [BoundingBox.contains, Vector2.add, Vector2.mul]
          exact ⟨h1.1, h1.2, h2.1, h2.2⟩
        · have h2 := hYC _ le_rfl ht1
          simp only [BoundingBox.onSide, Vector2.add, Vector2.mul]
          exact ⟨by linarith, h2.1, h2.2⟩
  · -- direction.x = 0 : sentinel on the vertical side
    have nx1 : ¬ (direction.x < 0) := by rw [hdx]; exact lt_irrefl 0
    have nx2 : ¬ (0 < direction.x) := by rw [hdx]; exact lt_irrefl 0
    have hXC : ∀ s : ℚ,
        b.left ≤ origin.x + direction.x * s
          ∧ origin.x + direction.x * s ≤ b.right := by
      intro s
      rw [hdx]
      constructor <;> simp <;> linarith
    rcases lt_trichotomy direction.y 0 with hdy | hdy | hdy
    · -- bottom hit forced
      have hdy0 : direction.y ≠ 0 := ne_of_lt hdy
      have ny1 : ¬ (0 < direction.y) := not_lt.mpr hdy.le
      have he2 : direction.y * ((b.bottom - origin.y) / direction.y)
          = b.bottom - origin.y := by field_simp
      have ht2 : (b.bottom - origin.y) / direction.y ≤ 0 := by
        rw [div_nonpos_iff]; exact Or.inl ⟨by linarith, hdy.le⟩
      have ht2bound : |(b.bottom - origin.y) / direction.y| < F64_MAX := by
        rw [abs_of_nonpos ht2]
        have heq : -((b.bottom - origin.y) / direction.y)
            = (b.bottom - origin.y) / (-direction.y) := (div_neg _).symm
        rw [heq, div_lt_iff (by linarith)]
        have hh := hx0 hdx
        rw [abs_of_nonpos hdy.le] at hh
        have : b.bottom - origin.y ≤ b.bottom - b.top := by linarith
        linarith
      have hcmp : |(b.bottom - origin.y) / direction.y| < |F64_MIN| := by
        rw [habsmin]; exact ht2bound
      have hgi : b.get_intersection origin direction
          = (origin.add (direction.mul ((b.bottom - origin.y) / direction.y)),
              Side.bottom) := by
        simp only [BoundingBox.get_intersection, nx1, nx2, hdy, ny1, hcmp,
          if_true, if_false, ite_true, ite_false]
      have hYC : ∀ s : ℚ, (b.bottom - origin.y) / direction.y ≤ s → s ≤ 0 →
          b.top ≤ origin.y + direction.y * s
            ∧ origin.y + direction.y * s ≤ b.bottom :=
        fun s hs1 hs0 => seg_bounds_neg hdy he2 hct hs1 hs0
      rw [hgi]
      refine ⟨(b.bottom - origin.y) / direction.y, ht2, rfl, ?_, ?_⟩
      · intro s hs1 hs0
        have h1 := hXC s
        have h2 := hYC s hs1 hs0
        simp only [BoundingBox.contains, Vector2.add, Vector2.mul]
        exact ⟨h1.1, h1.2, h2.1, h2.2⟩
      · have h1 := hXC ((b.bottom - origin.y) / direction.y)
        simp only [BoundingBox.onSide, Vector2.add, Vector2.mul]
        refine ⟨by linarith, h1.1, h1.2⟩
    · exact absurd hdx (hdir.resolve_right (fun h => h hdy))
    · -- top hit forced
      have hdy0 : direction.y ≠ 0 := ne_of_gt hdy
      have he2 : direction.y * ((b.top - origin.y) / direction.y)
          = b.top - origin.y := by field_simp
      have ht2 : (b.top - origin.y) / direction.y ≤ 0 := by
        rw [div_nonpos_iff]; exact Or.inr ⟨by linarith, hdy.le⟩
      have ht2bound : |(b.top - origin.y) / direction.y| < F64_MAX := by
        rw [abs_of_nonpos ht2]
        have heq : -((b.top - origin.y) / direction.y)
            = (origin.y - b.top) / direction.y := by
          rw [← neg_div, neg_sub]
        rw [heq, div_lt_iff hdy]
        have hh := hx0 hdx
        rw [abs_of_pos hdy] at hh
        have : origin.y - b.top ≤ b.bottom - b.top := by linarith
        linarith
      have hcmp : |(b.top - origin.y) / direction.y| < |F64_MIN| := by
        rw [habsmin]; exact ht2bound
      have hgi : b.get_intersection origin direction
          = (origin.add (direction.mul ((b.top - origin.y) / direction.y)),
              Side.top) := by
        simp only [BoundingBox.get_intersection, nx1, nx2, hdy, hcmp,
          if_true, if_false, ite_true, ite_false]
      have hYC : ∀ s : ℚ, (b.top - origin.y) / direction.y ≤ s → s ≤ 0 →
          b.top ≤ origin.y + direction.y * s
            ∧ origin.y + direction.y * s ≤ b.bottom :=
        fun s hs1 hs0 => seg_bounds_pos hdy he2 hcb hs1 hs0
      rw [hgi]
      refine ⟨(b.top - origin.y) / direction.y, ht2, rfl, ?_, ?_⟩
      · intro s hs1 hs0
        have h1 := hXC s
        have h2 := hYC s hs1 hs0
        simp only [BoundingBox.contains, Vector2.add, Vector2.mul]
        exact ⟨h1.1, h1.2, h2.1, h2.2⟩
      · have h1 := hXC ((b.top - origin.y) / direction.y)
        simp only [BoundingBox.onSide, Vector2.add, Vector2.mul]
        refine ⟨by linarith, h1.1, h1.2⟩
  · -- direction.x > 0 : vertical candidate is the Left side
    have hdx0 : direction.x ≠ 0 := ne_of_gt hdx
    have nx1 : ¬ (direction.x < 0) := not_lt.mpr hdx.le
    have he1 : direction.x * ((b.left - origin.x) / direction.x)
        = b.left - origin.x := by field_simp
    have ht1 : (b.left - origin.x) / direction.x ≤ 0 := by
      rw [div_nonpos_iff]; exact Or.inr ⟨by linarith, hdx.le⟩
    rcases lt_trichotomy direction.y 0 with hdy | hdy | hdy
    · -- direction.y < 0 : horizontal candidate is the Bottom side
      have hdy0 : direction.y ≠ 0 := ne_of_lt hdy
      have ny1 : ¬ (0 < direction.y) := not_lt.mpr hdy.le
      have he2 : direction.y * ((b.bottom - origin.y) / direction.y)
          = b.bottom - origin.y := by field_simp
      have ht2 : (b.bottom - origin.y) / direction.y ≤ 0 := by
        rw [div_nonpos_iff]; exact Or.inl ⟨by linarith, hdy.le⟩
      by_cases hcmp : |(b.bottom - origin.y) / direction.y|
          < |(b.left - origin.x) / direction.x|
      · -- bottom chosen
        have hgi : b.get_intersection origin direction
            = (origin.add (direction.mul ((b.bottom - origin.y) / direction.y)),
                Side.bottom) := by
          simp only [BoundingBox.get_intersection, nx1, hdx, hdy, ny1, hcmp,
            if_true, if_false, ite_true, ite_false]
        have hlt := hcmp
        rw [abs_of_nonpos ht2, abs_of_nonpos ht1, neg_lt_neg_iff] at hlt
        have hXC : ∀ s : ℚ, (b.bottom - origin.y) / direction.y ≤ s → s ≤ 0 →
            b.left ≤ origin.x + direction.x * s
              ∧ origin.x + direction.x * s ≤ b.right :=
          fun s hs1 hs0 => seg_bounds_pos hdx he1 hcr (hlt.le.trans hs1) hs0
        have hYC : ∀ s : ℚ, (b.bottom - origin.y) / direction.y ≤ s → s ≤ 0 →
            b.top ≤ origin.y + direction.y * s
              ∧ origin.y + direction.y * s ≤ b.bottom :=
          fun s hs1 hs0 => seg_bounds_neg hdy he2 hct hs1 hs0
        rw [hgi]
        refine ⟨(b.bottom - origin.y) / direction.y, ht2, rfl, ?_, ?_⟩
        · intro s hs1 hs0
          have h1 := hXC s hs1 hs0
          have h2 := hYC s hs1 hs0
          simp only [BoundingBox.contains, Vector2.add, Vector2.mul]
          exact ⟨h1.1, h1.2, h2.1, h2.2⟩
        · have h1 := hXC _ le_rfl ht2
          simp only [BoundingBox.onSide, Vector2.add, Vector2.mul]
          exact ⟨by linarith, h1.1, h1.2⟩
      · -- left chosen
        have hgi : b.get_intersection origin direction
            = (origin.add (direction.mul ((b.left - origin.x) / direction.x)),
                Side.left) := by
          simp only [BoundingBox.get_intersection, nx1, hdx, hdy, ny1, hcmp,
            if_true, if_false, ite_true, ite_false]
        have hle := not_lt.mp hcmp
        rw [abs_of_nonpos ht2, abs_of_nonpos ht1, neg_le_neg_iff] at hle
        have hXC : ∀ s : ℚ, (b.left - origin.x) / direction.x ≤ s → s ≤ 0 →
            b.left ≤ origin.x + direction.x * s
              ∧ origin.x + direction.x * s ≤ b.right :=
          fun s hs1 hs0 => seg_bounds_pos hdx he1 hcr hs1 hs0
        have hYC : ∀ s : ℚ, (b.left - origin.x) / direction.x ≤ s → s ≤ 0 →
            b.top ≤ origin.y + direction.y * s
              ∧ origin.y + direction.y * s ≤ b.bottom :=
          fun s hs1 hs0 => seg_bounds_neg hdy he2 hct (hle.trans hs1) hs0
        rw [hgi]
        refine ⟨(b.left - origin.x) / direction.x, ht1, rfl, ?_, ?_⟩
        · intro s hs1 hs0
          have h1 := hXC s hs1 hs0
          have h2 := hYC s hs1 hs0
          simp only [BoundingBox.contains, Vector2.add, Vector2.mul]
          exact ⟨h1.1, h1.2, h2.1, h2.2⟩
        · have h2 := hYC _ le_rfl ht1
          simp only [BoundingBox.onSide, Vector2.add, Vector2.mul]
          exact ⟨by linarith, h2.1, h2.2⟩
    · -- direction.y = 0 : sentinel, left hit forced
      have ny1 : ¬ (0 < direction.y) := by rw [hdy]; exact lt_irrefl 0
      have ny2 : ¬ (direction.y < 0) := by rw [hdy]; exact lt_irrefl 0
      have ht1bound : |(b.left - origin.x) / direction.x| < F64_MAX := by
        rw [abs_of_nonpos ht1]
        have heq : -((b.left - origin.x) / direction.x)
            = (origin.x - b.left) / direction.x := by
          rw [neg_div']
          congr 1
          ring
        rw [heq, div_lt_iff hdx]
        have hh := hy0 hdy
        rw [abs_of_pos hdx] at hh
        have : origin.x - b.left ≤ b.right - b.left := by linarith
        linarith
      have ncmp : ¬ (|F64_MAX| < |(b.left - origin.x) / direction.x|) := by
        rw [habsmax]; exact not_lt.mpr ht1bound.le
      have hgi : b.get_intersection origin direction
          = (origin.add (direction.mul ((b.left - origin.x) / direction.x)),
              Side.left) := by
        simp only [BoundingBox.get_intersection, nx1, hdx, ny1, ny2, ncmp,
          if_true, if_false, ite_true, ite_false]
      have hXC : ∀ s : ℚ, (b.left - origin.x) / direction.x ≤ s → s ≤ 0 →
          b.left ≤ origin.x + direction.x * s
            ∧ origin.x + direction.x * s ≤ b.right :=
        fun s hs1 hs0 => seg_bounds_pos hdx he1 hcr hs1 hs0
      have hYC : ∀ s : ℚ,
          b.top ≤ origin.y + direction.y * s
            ∧ origin.y + direction.y * s ≤ b.bottom := by
        intro s
        rw [hdy]
        constructor <;> simp <;> linarith
      rw [hgi]
      refine ⟨(b.left - origin.x) / direction.x, ht1, rfl, ?_, ?_⟩
      · intro s hs1 hs0
        have h1 := hXC s hs1 hs0
        have h2 := hYC s
        simp only [BoundingBox.contains, Vector2.add, Vector2.mul]
        exact ⟨h1.1, h1.2, h2.1, h2.2⟩
      · have h2 := hYC ((b.left - origin.x) / direction.x)
        simp only [BoundingBox.onSide, Vector2.add, Vector2.mul]
        exact ⟨by linarith, h2.1, h2.2⟩
    · -- direction.y > 0 : horizontal candidate is the Top side
      have hdy0 : direction.y ≠ 0 := ne_of_gt hdy
      have he2 : direction.y * ((b.top - origin.y) / direction.y)
          = b.top - origin.y := by field_simp
      have ht2 : (b.top - origin.y) / direction.y ≤ 0 := by
        rw [div_nonpos_iff]; exact Or.inr ⟨by linarith, hdy.le⟩
      by_cases hcmp : |(b.top - origin.y) / direction.y|
          < |(b.left - origin.x) / direction.x|
      · -- top chosen
        have hgi : b.get_intersection origin direction
            = (origin.add (direction.mul ((b.top - origin.y) / direction.y)),
                Side.top) := by
          simp only [BoundingBox.get_intersection, nx1, hdx, hdy, hcmp,
            if_true, if_false, ite_true, ite_false]
        have hlt := hcmp
        rw [abs_of_nonpos ht2, abs_of_nonpos ht1, neg_lt_neg_iff] at hlt
        have hXC : ∀ s : ℚ, (b.top - origin.y) / direction.y ≤ s → s ≤ 0 →
            b.left ≤ origin.x + direction.x * s
              ∧ origin.x + direction.x * s ≤ b.right :=
          fun s hs1 hs0 => seg_bounds_pos hdx he1 hcr (hlt.le.trans hs1) hs0
        have hYC : ∀ s : ℚ, (b.top - origin.y) / direction.y ≤ s → s ≤ 0 →
            b.top ≤ origin.y + direction.y * s
              ∧ origin.y + direction.y * s ≤ b.bottom :=
          fun s hs1 hs0 => seg_bounds_pos hdy he2 hcb hs1 hs0
        rw [hgi]
        refine ⟨(b.top - origin.y) / direction.y, ht2, rfl, ?_, ?_⟩
        · intro s hs1 hs0
          have h1 := hXC s hs1 hs0
          have h2 := hYC s hs1 hs0
          simp only [BoundingBox.contains, Vector2.add, Vector2.mul]
          exact ⟨h1.1, h1.2, h2.1, h2.2⟩
        · have h1 := hXC _ le_rfl ht2
          simp only [BoundingBox.onSide, Vector2.add, Vector2.mul]
          exact ⟨by linarith, h1.1, h1.2⟩
      · -- left chosen
        have hgi : b.get_intersection origin direction
            = (origin.add (direction.mul ((b.left - origin.x) / direction.x)),
                Side.left) := by
          simp only [BoundingBox.get_intersection, nx1, hdx, hdy, hcmp,
            if_true, if_false, ite_true, ite_false]
        have hle := not_lt.mp hcmp
        rw [abs_of_nonpos ht2, abs_of_nonpos ht1, neg_le_neg_iff] at hle
        have hXC : ∀ s : ℚ, (b.left - origin.x) / direction.x ≤ s → s ≤ 0 →
            b.left ≤ origin.x + direction.x * s
              ∧ origin.x + direction.x * s ≤ b.right :=
          fun s hs1 hs0 => seg_bounds_pos hdx he1 hcr hs1 hs0
        have hYC : ∀ s : ℚ, (b.left - origin.x) / direction.x ≤ s → s ≤ 0 →
            b.top ≤ origin.y + direction.y * s
              ∧ origin.y + direction.y * s ≤ b.bottom :=
          fun s hs1 hs0 => seg_bounds_pos hdy he2 hcb (hle.trans hs1) hs0
        rw [hgi]
        refine ⟨(b.left - origin.x) / direction.x, ht1, rfl, ?_, ?_⟩
        · intro s hs1 hs0
          have h1 := hXC s hs1 hs0
          have h2 := hYC s hs1 hs0
          simp only [BoundingBox.contains, Vector2.add, Vector2.mul]
          exact ⟨h1.1, h1.2, h2.1, h2.2⟩
        · have h2 := hYC _ le_rfl ht1
          simp only [BoundingBox.onSide, Vector2.add, Vector2.mul]
          exact ⟨by linarith, h2.1, h2.2⟩

/-- Witness for `get_intersection_first_backward_hit` at the unit box,
origin `(1/2, 1/2)` and direction `(1, 0)`. -/
theorem get_intersection_first_backward_hit_witness :
    BoundingBox.contains ⟨0, 1, 0, 1⟩ ⟨1/2, 1/2⟩
    ∧ ∃ t : ℚ, t ≤ 0
      ∧ (BoundingBox.get_intersection ⟨0, 1, 0, 1⟩ ⟨1/2, 1/2⟩ ⟨1, 0⟩).1
          = Vector2.add ⟨1/2, 1/2⟩ (Vector2.mul ⟨1, 0⟩ t)
      ∧ (∀ s : ℚ, t ≤ s → s ≤ 0 →
          BoundingBox.contains ⟨0, 1, 0, 1⟩
            (Vector2.add ⟨1/2, 1/2⟩ (Vector2.mul ⟨1, 0⟩ s)))
      ∧ BoundingBox.onSide ⟨0, 1, 0, 1⟩
          (BoundingBox.get_intersection ⟨0, 1, 0, 1⟩ ⟨1/2, 1/2⟩ ⟨1, 0⟩).2
          (BoundingBox.get_intersection ⟨0, 1, 0, 1⟩ ⟨1/2, 1/2⟩ ⟨1, 0⟩).1 :=
  ⟨by norm_num [BoundingBox.contains],
    get_intersection_first_backward_hit ⟨0, 1, 0, 1⟩ ⟨1/2, 1/2⟩ ⟨1, 0⟩
      (by norm_num [BoundingBox.contains]) (Or.inl (by norm_num))
      (fun h => absurd h (by norm_num)) (fun _ => by norm_num [F64_MAX])⟩

/-- C7 counterexample: the segment from `(-1, 2)` to `(2, -1)` passes exactly
through the two corners `(0, 1)` and `(1, 0)` of the unit box; every one of
the four side blocks of `get_intersections` fires, so the function returns
four `(point, side)` pairs — more than the two the claim allows. -/
theorem get_intersections_four_hits :
    (BoundingBox.get_intersections ⟨0, 1, 0, 1⟩ ⟨-1, 2⟩ ⟨2, -1⟩).length = 4
    ∧ ¬ (BoundingBox.get_intersections ⟨0, 1, 0, 1⟩ ⟨-1, 2⟩ ⟨2, -1⟩).length ≤ 2 := by
  have h : (BoundingBox.get_intersections ⟨0, 1, 0, 1⟩ ⟨-1, 2⟩ ⟨2, -1⟩).length = 4 := by
    norm_num [BoundingBox.get_intersections, BoundingBox.left_hits,
      BoundingBox.right_hits, BoundingBox.top_hits, BoundingBox.bottom_hits,
      Vector2.add, Vector2.mul, Vector2.sub]
  exact ⟨h, by omega⟩

/-! Helper lemmas for the four side blocks of `get_intersections`: each block
contributes at most one pair, and any contributed pair lies on its named side
with a segment parameter strictly between 0 and 1. -/

lemma left_hits_length (b : BoundingBox) (a c d : Vector2) :
    (BoundingBox.left_hits b a c d).length ≤ 1 := by
  simp only [BoundingBox.left_hits]
  split_ifs <;> simp

lemma right_hits_length (b : BoundingBox) (a c d : Vector2) :
    (BoundingBox.right_hits b a c d).length ≤ 1 := by
  simp only [BoundingBox.right_hits]
  split_ifs <;> simp

lemma top_hits_length (b : BoundingBox) (a c d : Vector2) :
    (BoundingBox.top_hits b a c d).length ≤ 1 := by
  simp only [BoundingBox.top_hits]
  split_ifs <;> simp

lemma bottom_hits_length (b : BoundingBox) (a c d : Vector2) :
    (BoundingBox.bottom_hits b a c d).length ≤ 1 := by
  simp only [BoundingBox.bottom_hits]
  split_ifs <;> simp

lemma left_hits_mem {b : BoundingBox} {a c d : Vector2} {p : Vector2 × Side}
    (hp : p ∈ BoundingBox.left_hits b a c d) :
    p.2 = Side.left ∧
      ∃ t : ℚ, 0 < t ∧ t < 1 ∧ p.1 = a.add (d.mul t) ∧ b.onSide Side.left p.1 := by
  simp only [BoundingBox.left_hits] at hp
  split_ifs at hp with h1 h2 h3
  · simp only [List.mem_singleton] at hp
    obtain ⟨ht0, ht1⟩ := h2
    have hdx : d.x ≠ 0 := by
      intro h
      rw [h, div_zero] at ht0
      exact lt_irrefl 0 ht0
    subst hp
    refine ⟨rfl, (b.left - a.x) / d.x, ht0, ht1, rfl, ?_, h3.1, h3.2⟩
    show (a.add (d.mul ((b.left - a.x) / d.x))).x = b.left
    simp only [Vector2.add, Vector2.mul]
    field_simp
  · exact absurd hp (List.not_mem_nil p)
  · exact absurd hp (List.not_mem_nil p)
  · exact absurd hp (List.not_mem_nil p)

lemma right_hits_mem {b : BoundingBox} {a c d : Vector2} {p : Vector2 × Side}
    (hp : p ∈ BoundingBox.right_hits b a c d) :
    p.2 = Side.right ∧
      ∃ t : ℚ, 0 < t ∧ t < 1 ∧ p.1 = a.add (d.mul t) ∧ b.onSide Side.right p.1 := by
  simp only [BoundingBox.right_hits] at hp
  split_ifs at hp with h1 h2 h3
  · simp only [List.mem_singleton] at hp
    obtain ⟨ht0, ht1⟩ := h2
    have hdx : d.x ≠ 0 := by
      intro h
      rw [h, div_zero] at ht0
      exact lt_irrefl 0 ht0
    subst hp
    refine ⟨rfl, (b.right - a.x) / d.x, ht0, ht1, rfl, ?_, h3.1, h3.2⟩
    show (a.add (d.mul ((b.right - a.x) / d.x))).x = b.right
    simp only [Vector2.add, Vector2.mul]
    field_simp
  · exact absurd hp (List.not_mem_nil p)
  · exact absurd hp (List.not_mem_nil p)
  · exact absurd hp (List.not_mem_nil p)

lemma top_hits_mem {b : BoundingBox} {a c d : Vector2} {p : Vector2 × Side}
    (hp : p ∈ BoundingBox.top_hits b a c d) :
    p.2 = Side.top ∧
      ∃ t : ℚ, 0 < t ∧ t < 1 ∧ p.1 = a.add (d.mul t) ∧ b.onSide Side.top p.1 := by
  simp only [BoundingBox.top_hits] at hp
  split_ifs at hp with h1 h2 h3
  · simp only [List.mem_singleton] at hp
    obtain ⟨ht0, ht1⟩ := h2
    have hdy : d.y ≠ 0 := by
      intro h
      rw [h, div_zero] at ht0
      exact lt_irrefl 0 ht0
    subst hp
    refine ⟨rfl, (b.top - a.y) / d.y, ht0, ht1, rfl, ?_, h3.1, h3.2⟩
    show (a.add (d.mul ((b.top - a.y) / d.y))).y = b.top
    simp only [Vector2.add, Vector2.mul]
    field_simp
  · exact absurd hp (List.not_mem_nil p)
  · exact absurd hp (List.not_mem_nil p)
  · exact absurd hp (List.not_mem_nil p)

lemma bottom_hits_mem {b : BoundingBox} {a c d : Vector2} {p : Vector2 × Side}
    (hp : p ∈ BoundingBox.bottom_hits b a c d) :
    p.2 = Side.bottom ∧
      ∃ t : ℚ, 0 < t ∧ t < 1 ∧ p.1 = a.add (d.mul t) ∧ b.onSide Side.bottom p.1 := by
  simp only [BoundingBox.bottom_hits] at hp
  split_ifs at hp with h1 h2 h3
  · simp only [List.mem_singleton] at hp
    obtain ⟨ht0, ht1⟩ := h2
    have hdy : d.y ≠ 0 := by
      intro h
      rw [h, div_zero] at ht0
      exact lt_irrefl 0 ht0
    subst hp
    refine ⟨rfl, (b.bottom - a.y) / d.y, ht0, ht1, rfl, ?_, h3.1, h3.2⟩
    show (a.add (d.mul ((b.bottom - a.y) / d.y))).y = b.bottom
    simp only [Vector2.add, Vector2.mul]
    field_simp
  · exact absurd hp (List.not_mem_nil p)
  · exact absurd hp (List.not_mem_nil p)
  · exact absurd hp (List.not_mem_nil p)

/-- C7 amended: `get_intersections` returns at most *four* `(point, side)`
pairs — at most one per box side — and every returned pair lies on its named
side of the rectangle at a segment parameter strictly between 0 and 1.  (The
claim's bound of two fails only on segments that pass exactly through a box
corner, where the crossing is reported once per incident side, as the
counterexample `get_intersections_four_hits` shows.) -/
theorem get_intersections_at_most_one_hit_per_side (b : BoundingBox)
    (a c : Vector2) :
    (b.get_intersections a c).length ≤ 4
    ∧ (∀ s : Side, ((b.get_intersections a c).countP (fun q => q.2 == s)) ≤ 1)
    ∧ ∀ p ∈ b.get_intersections a c,
        ∃ t : ℚ, 0 < t ∧ t < 1 ∧ p.1 = a.add ((c.sub a).mul t)
          ∧ b.onSide p.2 p.1 := by
  set d := c.sub a with hd
  refine ⟨?_, ?_, ?_⟩
  · have h1 := left_hits_length b a c d
    have h2 := right_hits_length b a c d
    have h3 := top_hits_length b a c d
    have h4 := bottom_hits_length b a c d
    simp only [BoundingBox.get_intersections, List.length_append, ← hd]
    omega
  · intro s
    have key : ∀ (l : List (Vector2 × Side)) (s0 : Side),
        (∀ p ∈ l, p.2 = s0) → l.length ≤ 1 →
        l.countP (fun q => q.2 == s) ≤ 1 ∧ (s0 ≠ s → l.countP (fun q => q.2 == s) = 0) := by
      intro l s0 hall hlen
      constructor
      · exact le_trans (List.countP_le_length _) hlen
      · intro hne
        rw [List.countP_eq_zero]
        intro p hp
        simp only [beq_iff_eq]
        rw [hall p hp]
        exact hne
    have k1 := key _ Side.left (fun p hp => (left_hits_mem hp).1)
      (left_hits_length b a c d)
    have k2 := key _ Side.right (fun p hp => (right_hits_mem hp).1)
      (right_hits_length b a c d)
    have k3 := key _ Side.top (fun p hp => (top_hits_mem hp).1)
      (top_hits_length b a c d)
    have k4 := key _ Side.bottom (fun p hp => (bottom_hits_mem hp).1)
      (bottom_hits_length b a c d)
    simp only [BoundingBox.get_intersections, List.countP_append, ← hd]
    rcases s with _ | _ | _ | _ | _
    · have := k2.2 (by simp)
      have := k3.2 (by simp)
      have := k4.2 (by simp)
      have := k1.1
      omega
    · have := k1.2 (by simp)
      have := k3.2 (by simp)
      have := k4.2 (by simp)
      have := k2.1
      omega
    · have := k1.2 (by simp)
      have := k2.2 (by simp)
      have := k4.2 (by simp)
      have := k3.1
      omega
    · have := k1.2 (by simp)
      have := k2.2 (by simp)
      have := k3.2 (by simp)
      have := k4.1
      omega
    · have := k1.2 (by simp)
      have := k2.2 (by simp)
      have := k3.2 (by simp)
      have := k4.2 (by simp)
      omega
  · intro p hp
    simp only [BoundingBox.get_intersections, List.mem_append, ← hd] at hp
    rcases hp with ((hp | hp) | hp) | hp
    · obtain ⟨hside, t, ht0, ht1, hpt, hon⟩ := left_hits_mem hp
      exact ⟨t, ht0, ht1, hpt, by rw [hside]; exact hon⟩
    · obtain ⟨hside, t, ht0, ht1, hpt, hon⟩ := right_hits_mem hp
      exact ⟨t, ht0, ht1, hpt, by rw [hside]; exact hon⟩
    · obtain ⟨hside, t, ht0, ht1, hpt, hon⟩ := top_hits_mem hp
      exact ⟨t, ht0, ht1, hpt, by rw [hside]; exact hon⟩
    · obtain ⟨hside, t, ht0, ht1, hpt, hon⟩ := bottom_hits_mem hp
      exact ⟨t, ht0, ht1, hpt, by rw [hside]; exact hon⟩


lemma qswap_length (q : List Event) (i j : Nat) :
    (qswap q i j).length = q.length := by
  unfold qswap
  split <;> simp

lemma sd_target_lt {q : List Event} {i : Nat} (h : sd_target q i ≠ i) :
    i < sd_target q i ∧ sd_target q i < q.length := by
  dsimp only [sd_target] at h ⊢
  split_ifs at h ⊢ with h1 h2 h3 <;>
    simp only [get_left, get_right] at * <;> omega

/-! ### Basic list facts -/

lemma set_getElem_self {α : Type} (l : List α) (i : Nat) (h : i < l.length) :
    l.set i l[i] = l := by
  apply List.ext_getElem?
  intro n
  rw [List.getElem?_set]
  by_cases he : i = n
  · subst he; simp [h]
  · simp [he]

lemma set_set_perm {α : Type} [DecidableEq α] (l : List α) (i j : Nat)
    (hi : i < l.length) (hj : j < l.length) :
    ((l.set i l[j]).set j l[i]).Perm l := by
  rcases eq_or_ne i j with rfl | hij
  · rw [List.set_set, set_getElem_self l i hi]
  · rw [List.perm_iff_count]
    intro a
    have hj1 : j < (l.set i l[j]).length := by simpa using hj
    rw [List.count_set _ _ _ _ hj1, List.count_set _ _ _ _ hi,
      List.getElem_set_of_ne hij _ hj1]
    simp only [beq_iff_eq]
    have hpi : l[i] = a → 0 < l.count a :=
      fun c => List.count_pos_iff_mem.mpr (c ▸ List.getElem_mem hi)
    have hpj : l[j] = a → 0 < l.count a :=
      fun c => List.count_pos_iff_mem.mpr (c ▸ List.getElem_mem hj)
    split_ifs with c1 c2 c3 c4 <;>
      [have := hpi c1; have := hpi c1; have := hpj c3; skip] <;> omega

/-! ### Swap lemmas -/

lemma payload_index_irrelevant (e : Event) (k : Nat) :
    Event.payload { e with index := k } = e.payload := rfl

lemma qswap_oob {q : List Event} {i j : Nat}
    (h : ¬(i < q.length ∧ j < q.length)) : qswap q i j = q := by
  unfold qswap
  exact dif_neg h

lemma yAt_qswap {q : List Event} {i j : Nat}
    (hi : i < q.length) (hj : j < q.length) (k : Nat) :
    yAt (qswap q i j) k
      = if k = i then yAt q j else if k = j then yAt q i else yAt q k := by
  unfold qswap
  rw [dif_pos ⟨hi, hj⟩]
  unfold yAt
  rcases eq_or_ne k j with rfl | hkj
  · rw [List.getElem?_set_eq (by simpa using hj)]
    rcases eq_or_ne k i with rfl | hki
    · simp [List.getElem?_eq_getElem hi]
    · simp [List.getElem?_eq_getElem hi, hki]
  · rw [List.getElem?_set_ne (fun h => hkj h.symm)]
    rcases eq_or_ne k i with rfl | hki
    · rw [List.getElem?_set_eq (by simpa using hi)]
      simp [List.getElem?_eq_getElem hj, hkj]
    · rw [List.getElem?_set_ne (fun h => hki h.symm)]
      simp [hki, hkj]

lemma qswap_payload_perm (q : List Event) (i j : Nat) :
    ((qswap q i j).map Event.payload).Perm (q.map Event.payload) := by
  by_cases h : i < q.length ∧ j < q.length
  · unfold qswap
    rw [dif_pos h]
    rw [List.map_set, List.map_set]
    have hi' : i < (q.map Event.payload).length := by simpa using h.1
    have hj' : j < (q.map Event.payload).length := by simpa using h.2
    have e1 : Event.payload { q.get ⟨j, h.2⟩ with index := i }
        = (q.map Event.payload)[j] := by
      rw [payload_index_irrelevant, List.getElem_map]
      rfl
    have e2 : Event.payload { q.get ⟨i, h.1⟩ with index := j }
        = (q.map Event.payload)[i] := by
      rw [payload_index_irrelevant, List.getElem_map]
      rfl
    rw [e1, e2]
    exact set_set_perm _ i j hi' hj'
  · rw [qswap_oob h]

lemma indexOK_qswap {q : List Event} (hq : IndexOK q) (i j : Nat) :
    IndexOK (qswap q i j) := by
  by_cases h : i < q.length ∧ j < q.length
  · intro k e hke
    unfold qswap at hke
    rw [dif_pos h] at hke
    rcases eq_or_ne k j with rfl | hkj
    · rw [List.getElem?_set_eq (by simpa using h.2)] at hke
      cases hke
      rfl
    · rw [List.getElem?_set_ne (fun hh => hkj hh.symm)] at hke
      rcases eq_or_ne k i with rfl | hki
      · rw [List.getElem?_set_eq (by simpa using h.1)] at hke
        cases hke
        rfl
      · rw [List.getElem?_set_ne (fun hh => hki hh.symm)] at hke
        exact hq k e hke
  · rw [qswap_oob h]
    exact hq

/-! ### Sift lemmas: length, payload permutation, index invariant -/

lemma sift_up_length (q : List Event) (i : Nat) :
    (sift_up q i).length = q.length := by
  induction q, i using sift_up.induct with
  | case1 q i hcond ih =>
    rw [sift_up, if_pos hcond, ih, qswap_length]
  | case2 q i hcond =>
    rw [sift_up, if_neg hcond]

lemma sift_up_payload_perm (q : List Event) (i : Nat) :
    ((sift_up q i).map Event.payload).Perm (q.map Event.payload) := by
  induction q, i using sift_up.induct with
  | case1 q i hcond ih =>
    rw [sift_up, if_pos hcond]
    exact ih.trans (qswap_payload_perm q i (get_parent i))
  | case2 q i hcond =>
    rw [sift_up, if_neg hcond]

lemma sift_up_indexOK {q : List Event} (hq : IndexOK q) (i : Nat) :
    IndexOK (sift_up q i) := by
  induction q, i using sift_up.induct with
  | case1 q i hcond ih =>
    rw [sift_up, if_pos hcond]
    exact ih (indexOK_qswap hq i (get_parent i))
  | case2 q i hcond =>
    rw [sift_up, if_neg hcond]
    exact hq

lemma sift_down_length (q : List Event) (i : Nat) :
    (sift_down q i).length = q.length := by
  induction q, i using sift_down.induct with
  | case1 q i hcond =>
    rw [sift_down, dif_pos hcond]
  | case2 q i hcond ih =>
    rw [sift_down, dif_neg hcond, ih, qswap_length]

lemma sift_down_payload_perm (q : List Event) (i : Nat) :
    ((sift_down q i).map Event.payload).Perm (q.map Event.payload) := by
  induction q, i using sift_down.induct with
  | case1 q i hcond =>
    rw [sift_down, dif_pos hcond]
  | case2 q i hcond ih =>
    rw [sift_down, dif_neg hcond]
    exact ih.trans (qswap_payload_perm q i (sd_target q i))

lemma sift_down_indexOK {q : List Event} (hq : IndexOK q) (i : Nat) :
    IndexOK (sift_down q i) := by
  induction q, i using sift_down.induct with
  | case1 q i hcond =>
    rw [sift_down, dif_pos hcond]
    exact hq
  | case2 q i hcond ih =>
    rw [sift_down, dif_neg hcond]
    exact ih (indexOK_qswap hq i (sd_target q i))

lemma update_length (q : List Event) (i : Nat) :
    (update q i).length = q.length := by
  unfold update
  split
  · exact sift_up_length q i
  · exact sift_down_length q i

lemma update_payload_perm (q : List Event) (i : Nat) :
    ((update q i).map Event.payload).Perm (q.map Event.payload) := by
  unfold update
  split
  · exact sift_up_payload_perm q i
  · exact sift_down_payload_perm q i

lemma update_indexOK {q : List Event} (hq : IndexOK q) (i : Nat) :
    IndexOK (update q i) := by
  unfold update
  split
  · exact sift_up_indexOK hq i
  · exact sift_down_indexOK hq i

/-! ### Heap correctness of the sift operations -/

lemma get_parent_lt {i : Nat} (h : 0 < i) : get_parent i < i := by
  unfold get_parent
  omega

lemma children_of {i j : Nat} (hj : 0 < j) :
    get_parent j = i ↔ (j = get_left i ∨ j = get_right i) := by
  unfold get_parent get_left get_right
  omega

/-- State during sift-up: every non-root edge is ordered except the one into
`i`, and the children of `i` are already at least `i`'s parent. -/
def UpInv (q : List Event) (i : Nat) : Prop :=
  (∀ j, 0 < j → j < q.length → j ≠ i → yAt q (get_parent j) ≤ yAt q j)
  ∧ (0 < i → ∀ j, 0 < j → j < q.length → get_parent j = i →
      yAt q (get_parent i) ≤ yAt q j)

/-- State during sift-down: every non-root edge is ordered except those out
of `i`, and the children of `i` are already at least `i`'s parent. -/
def DownInv (q : List Event) (i : Nat) : Prop :=
  (∀ j, 0 < j → j < q.length → get_parent j ≠ i → yAt q (get_parent j) ≤ yAt q j)
  ∧ (0 < i → ∀ j, 0 < j → j < q.length → get_parent j = i →
      yAt q (get_parent i) ≤ yAt q j)

lemma sift_up_heap (q : List Event) (i : Nat) (hi : i < q.length)
    (hinv : UpInv q i) : IsMinHeap (sift_up q i) := by
  induction q, i using sift_up.induct with
  | case1 q i hcond ih =>
    obtain ⟨h1, h2⟩ := hinv
    obtain ⟨hi0, hylt⟩ := hcond
    rw [sift_up, if_pos ⟨hi0, hylt⟩]
    have hpi : get_parent i < i := get_parent_lt hi0
    have hplen : get_parent i < q.length := hpi.trans hi
    have hyi : yAt (qswap q i (get_parent i)) i = yAt q (get_parent i) := by
      rw [yAt_qswap hi hplen]
      simp
    have hyp : yAt (qswap q i (get_parent i)) (get_parent i) = yAt q i := by
      rw [yAt_qswap hi hplen]
      simp [hpi.ne]
    have hyo : ∀ k, k ≠ i → k ≠ get_parent i →
        yAt (qswap q i (get_parent i)) k = yAt q k := by
      intro k hk1 hk2
      rw [yAt_qswap hi hplen]
      simp [hk1, hk2]
    apply ih
    · rw [qswap_length]
      exact hplen
    · constructor
      · -- ordered except the edge into the parent slot
        intro j hj0 hjlen hjp
        rw [qswap_length] at hjlen
        rcases eq_or_ne j i with rfl | hji
        · -- the swapped edge itself is now ordered
          rw [hyi, hyp]
          exact hylt.le
        · rw [hyo j hji hjp]
          rcases eq_or_ne (get_parent j) i with hpj | hpj
          · rw [hpj, hyi]
            exact h2 hi0 j hj0 hjlen hpj
          · rcases eq_or_ne (get_parent j) (get_parent i) with hpp | hpp
            · rw [hpp, hyp]
              exact le_trans hylt.le (hpp ▸ h1 j hj0 hjlen hji)
            · rw [hyo (get_parent j) hpj hpp]
              exact h1 j hj0 hjlen hji
      · -- children of the parent slot are at least the grandparent
        intro hp0 j hj0 hjlen hpj
        rw [qswap_length] at hjlen
        have hpp_lt : get_parent (get_parent i) < get_parent i :=
          get_parent_lt hp0
        have hppo : yAt (qswap q i (get_parent i)) (get_parent (get_parent i))
            = yAt q (get_parent (get_parent i)) := by
          apply hyo <;> omega
        rw [hppo]
        rcases eq_or_ne j i with rfl | hji
        · rw [hyi]
          exact h1 (get_parent j) hp0 hplen hpi.ne
        · have hjp : j ≠ get_parent i := by
            intro hj
            rw [hj] at hpj
            exact absurd hpj (get_parent_lt hp0).ne
          rw [hyo j hji hjp]
          exact le_trans (h1 (get_parent i) hp0 hplen hpi.ne)
            (hpj ▸ h1 j hj0 hjlen hji)
  | case2 q i hcond =>
    rw [sift_up, if_neg hcond]
    intro j hj0 hjlen
    rcases eq_or_ne j i with rfl | hji
    · have := not_and.mp hcond hj0
      exact not_lt.mp this
    · exact hinv.1 j hj0 hjlen hji

lemma sd_target_eq_spec {q : List Event} {i : Nat} (h : sd_target q i = i) :
    ∀ j, (j = get_left i ∨ j = get_right i) → j < q.length →
      yAt q i ≤ yAt q j := by
  dsimp only [sd_target] at h
  split_ifs at h with c1 c2 c3
  · exact absurd h (by unfold get_right; omega)
  · exact absurd h (by unfold get_left; omega)
  · exact absurd h (by unfold get_right; omega)
  · push_neg at c1 c3
    rintro j (rfl | rfl) hjlen
    · exact c1 hjlen
    · exact c3 hjlen

lemma sd_target_spec {q : List Event} {i : Nat} (h : sd_target q i ≠ i) :
    sd_target q i < q.length ∧ i < sd_target q i
    ∧ get_parent (sd_target q i) = i
    ∧ yAt q (sd_target q i) < yAt q i
    ∧ (∀ j, (j = get_left i ∨ j = get_right i) → j < q.length →
        yAt q (sd_target q i) ≤ yAt q j) := by
  have hpar : ∀ k, (k = get_left i ∨ k = get_right i) → get_parent k = i := by
    intro k hk
    have hk0 : 0 < k := by
      unfold get_left get_right at hk
      omega
    exact (children_of hk0).mpr hk
  dsimp only [sd_target] at h ⊢
  split_ifs at h ⊢ with c1 c2 c3
  · -- right child chosen over (already smaller) left child
    refine ⟨c2.1, by unfold get_right; omega, hpar _ (Or.inr rfl),
      lt_trans c2.2 c1.2, ?_⟩
    rintro j (rfl | rfl) hjlen
    · exact c2.2.le
    · exact le_rfl
  · -- left child chosen
    push_neg at c2
    refine ⟨c1.1, by unfold get_left; omega, hpar _ (Or.inl rfl), c1.2, ?_⟩
    rintro j (rfl | rfl) hjlen
    · exact le_rfl
    · exact c2 hjlen
  · -- right child chosen, left child not smaller than the slot
    push_neg at c1
    refine ⟨c3.1, by unfold get_right; omega, hpar _ (Or.inr rfl), c3.2, ?_⟩
    rintro j (rfl | rfl) hjlen
    · exact le_trans c3.2.le (c1 hjlen)
    · exact le_rfl
  · exact absurd rfl h

lemma sift_down_heap (q : List Event) (i : Nat) (hinv : DownInv q i) :
    IsMinHeap (sift_down q i) := by
  induction q, i using sift_down.induct with
  | case1 q i hcond =>
    rw [sift_down, dif_pos hcond]
    intro j hj0 hjlen
    rcases eq_or_ne (get_parent j) i with hpj | hpj
    · rw [hpj]
      exact sd_target_eq_spec hcond j ((children_of hj0).mp hpj) hjlen
    · exact hinv.1 j hj0 hjlen hpj
  | case2 q i hcond ih =>
    obtain ⟨h1, h2⟩ := hinv
    rw [sift_down, dif_neg hcond]
    obtain ⟨hclen, hic, hcpar, hclt, hcmin⟩ := sd_target_spec hcond
    have hilen : i < q.length := lt_trans hic hclen
    have hc0 : 0 < sd_target q i := by omega
    have hyi : yAt (qswap q i (sd_target q i)) i = yAt q (sd_target q i) := by
      rw [yAt_qswap hilen hclen]
      simp
    have hyc : yAt (qswap q i (sd_target q i)) (sd_target q i) = yAt q i := by
      rw [yAt_qswap hilen hclen]
      simp [hic.ne.symm]
    have hyo : ∀ k, k ≠ i → k ≠ sd_target q i →
        yAt (qswap q i (sd_target q i)) k = yAt q k := by
      intro k hk1 hk2
      rw [yAt_qswap hilen hclen]
      simp [hk1, hk2]
    apply ih
    constructor
    · intro j hj0 hjlen hjpc
      rw [qswap_length] at hjlen
      rcases eq_or_ne j i with rfl | hji
      · have hpi_lt : get_parent j < j := get_parent_lt hj0
        have hpio : yAt (qswap q j (sd_target q j)) (get_parent j)
            = yAt q (get_parent j) := hyo _ hpi_lt.ne (by omega)
        rw [hpio, hyi]
        exact h2 hj0 (sd_target q j) hc0 hclen hcpar
      · rcases eq_or_ne j (sd_target q i) with rfl | hjc
        · rw [hcpar, hyi, hyc]
          exact hclt.le
        · rw [hyo j hji hjc]
          rcases eq_or_ne (get_parent j) i with hpj | hpj
          · rw [hpj, hyi]
            exact hcmin j ((children_of hj0).mp hpj) hjlen
          · rw [hyo (get_parent j) hpj hjpc]
            exact h1 j hj0 hjlen hpj
    · intro _ j hj0 hjlen hpjc
      rw [qswap_length] at hjlen
      rw [hcpar, hyi]
      have hcj : sd_target q i < j := hpjc ▸ get_parent_lt hj0
      have hji : j ≠ i := by omega
      have hjc : j ≠ sd_target q i := by omega
      rw [hyo j hji hjc, ← hpjc]
      refine h1 j hj0 hjlen ?_
      rw [hpjc]
      exact hic.ne.symm

/-! ### Operation-level heap preservation -/

lemma yAt_append {q : List Event} {e : Event} {k : Nat} (hk : k < q.length) :
    yAt (q ++ [e]) k = yAt q k := by
  unfold yAt
  rw [List.getElem?_append, if_pos hk]

lemma yAt_dropLast {q : List Event} {k : Nat} (hk : k < q.length - 1) :
    yAt q.dropLast k = yAt q k := by
  unfold yAt
  rw [List.dropLast_eq_take, List.getElem?_take]
  rw [if_pos hk]

lemma push_heap {q : List Event} (hq : IsMinHeap q) (e : Event) :
    IsMinHeap (sift_up (q ++ [e]) q.length) := by
  apply sift_up_heap _ _ (by simp)
  constructor
  · intro j hj0 hjlen hji
    simp only [List.length_append, List.length_singleton] at hjlen
    have hjq : j < q.length := by omega
    have hpq : get_parent j < q.length := lt_trans (get_parent_lt hj0) hjq
    rw [yAt_append hjq, yAt_append hpq]
    exact hq j hj0 hjq
  · intro h0 j hj0 hjlen hpj
    have := get_parent_lt hj0
    simp only [List.length_append, List.length_singleton] at hjlen
    omega

lemma pop_heap {q : List Event} (hq : IsMinHeap q) :
    IsMinHeap (sift_down (qswap q 0 (q.length - 1)).dropLast 0) := by
  apply sift_down_heap
  constructor
  · intro j hj0 hjlen hpj
    have hp0 : 0 < get_parent j := Nat.pos_of_ne_zero hpj
    have hlen : (qswap q 0 (q.length - 1)).dropLast.length = q.length - 1 := by
      rw [List.length_dropLast, qswap_length]
    rw [hlen] at hjlen
    have hq1 : 1 ≤ q.length := by omega
    have hje : j < q.length - 1 := hjlen
    have hpe : get_parent j < q.length - 1 := lt_trans (get_parent_lt hj0) hje
    rw [yAt_dropLast (by rw [qswap_length]; exact hpe),
      yAt_dropLast (by rw [qswap_length]; exact hje)]
    by_cases hq0 : 0 < q.length ∧ q.length - 1 < q.length
    · rw [yAt_qswap hq0.1 hq0.2, yAt_qswap hq0.1 hq0.2]
      rw [if_neg (by omega), if_neg (by omega), if_neg (by omega),
        if_neg (by omega)]
      exact hq j hj0 (by omega)
    · omega
  · intro h0
    omega

lemma remove_heap {q : List Event} (hq : IsMinHeap q) (index : Nat)
    (hidx : index < q.length) :
    IsMinHeap ((EventQueue.remove_event ⟨q, 0⟩ index).queue) := by
  show IsMinHeap
    (if index < (qswap q index (q.length - 1)).dropLast.length then
      update (qswap q index (q.length - 1)).dropLast index
    else (qswap q index (q.length - 1)).dropLast)
  have hlen : (qswap q index (q.length - 1)).dropLast.length = q.length - 1 := by
    rw [List.length_dropLast, qswap_length]
  have hb : index < q.length ∧ q.length - 1 < q.length := ⟨hidx, by omega⟩
  -- values of the shrunken queue
  have hval : ∀ k, k < q.length - 1 → k ≠ index →
      yAt (qswap q index (q.length - 1)).dropLast k = yAt q k := by
    intro k hk hki
    rw [yAt_dropLast (by rw [qswap_length]; exact hk),
      yAt_qswap hb.1 hb.2, if_neg hki, if_neg (by omega)]
  have hvidx : index < q.length - 1 →
      yAt (qswap q index (q.length - 1)).dropLast index = yAt q (q.length - 1) := by
    intro hk
    rw [yAt_dropLast (by rw [qswap_length]; exact hk),
      yAt_qswap hb.1 hb.2, if_pos rfl]
  split
  case isFalse h => 
    -- the removed slot was the last one: the heap shrinks by one untouched slot
    rw [hlen] at h
    intro j hj0 hjlen
    rw [hlen] at hjlen
    have hji : j ≠ index := by omega
    have hpi : get_parent j ≠ index := by
      have := get_parent_lt hj0
      omega
    rw [hval j hjlen hji, hval (get_parent j) (lt_trans (get_parent_lt hj0) hjlen) hpi]
    exact hq j hj0 (by omega)
  case isTrue h =>
    rw [hlen] at h
    unfold update
    split
    case isTrue hcond =>
      -- sift up: the displaced element is smaller than its parent
      apply sift_up_heap _ _ (by rw [hlen]; exact h)
      obtain ⟨hi0, hlt⟩ := hcond
      have hplen : get_parent index < q.length - 1 := lt_trans (get_parent_lt hi0) h
      constructor
      · intro j hj0 hjlen hji
        rw [hlen] at hjlen
        rcases eq_or_ne (get_parent j) index with hpj | hpj
        · -- children of the displaced slot: old chain through the removed value
          rw [hpj, hval j hjlen hji]
          calc yAt (qswap q index (q.length - 1)).dropLast index
              ≤ yAt (qswap q index (q.length - 1)).dropLast (get_parent index) :=
                hlt.le
            _ = yAt q (get_parent index) := hval _ hplen (get_parent_lt hi0).ne
            _ ≤ yAt q index := hq index hi0 hidx
            _ ≤ yAt q j := hpj ▸ hq j hj0 (by omega)
        · rw [hval j hjlen hji,
            hval (get_parent j) (lt_trans (get_parent_lt hj0) hjlen) hpj]
          exact hq j hj0 (by omega)
      · intro h0 j hj0 hjlen hpj
        rw [hlen] at hjlen
        have hji : j ≠ index := by
          have := get_parent_lt hj0
          omega
        rw [hval j hjlen hji,
          hval (get_parent index) hplen (get_parent_lt hi0).ne]
        calc yAt q (get_parent index)
            ≤ yAt q index := hq index hi0 hidx
          _ ≤ yAt q j := hpj ▸ hq j hj0 (by omega)
    case isFalse hcond =>
      -- sift down: the edge into the displaced slot is already ordered
      apply sift_down_heap
      constructor
      · intro j hj0 hjlen hpj
        rw [hlen] at hjlen
        rcases eq_or_ne j index with rfl | hji
        · -- edge into the displaced slot, given by the update guard
          have hj0' : 0 < j := hj0
          have := not_and.mp hcond hj0'
          exact not_lt.mp this
        · rw [hval j hjlen hji,
            hval (get_parent j) (lt_trans (get_parent_lt hj0) hjlen) hpj]
          exact hq j hj0 (by omega)
      · intro h0 j hj0 hjlen hpj
        rw [hlen] at hjlen
        have hji : j ≠ index := by
          have := get_parent_lt hj0
          omega
        have hplen : get_parent index < q.length - 1 :=
          lt_trans (get_parent_lt h0) h
        rw [hval j hjlen hji,
          hval (get_parent index) hplen (get_parent_lt h0).ne]
        calc yAt q (get_parent index)
            ≤ yAt q index := hq index h0 hidx
          _ ≤ yAt q j := hpj ▸ hq j hj0 (by omega)

/-! ### Index back-reference preservation and the reachable invariant -/

lemma indexOK_append {q : List Event} (hq : IndexOK q) {e : Event}
    (he : e.index = q.length) : IndexOK (q ++ [e]) := by
  intro k ev hk
  rw [List.getElem?_append] at hk
  split at hk
  · exact hq k ev hk
  · next hge =>
    rcases Nat.lt_or_ge k (q.length + 1) with hlt | hge2
    · have hkq : k = q.length := by omega
      subst hkq
      simp at hk
      rw [← hk, he]
    · rw [List.getElem?_eq_none (by simp only [List.length_singleton]; omega)] at hk
      cases hk

lemma indexOK_dropLast {q : List Event} (hq : IndexOK q) : IndexOK q.dropLast := by
  intro k ev hk
  rw [List.dropLast_eq_take, List.getElem?_take] at hk
  split at hk
  · exact hq k ev hk
  · cases hk

/-- Both invariants of the queue representation. -/
def QueueInv (eq : EventQueue) : Prop :=
  IsMinHeap eq.queue ∧ IndexOK eq.queue

theorem reachable_inv {eq : EventQueue} (h : Reachable eq) : QueueInv eq := by
  induction h with
  | new =>
    constructor
    · intro i h0 hlen
      simp [EventQueue.new] at hlen
    · intro i e he
      simp [EventQueue.new] at he
  | add_site eq y face _ ih =>
    obtain ⟨hheap, hidx⟩ := ih
    exact ⟨push_heap hheap _, sift_up_indexOK (indexOK_append hidx rfl) _⟩
  | add_circle eq y point arc _ ih =>
    obtain ⟨hheap, hidx⟩ := ih
    exact ⟨push_heap hheap _, sift_up_indexOK (indexOK_append hidx rfl) _⟩
  | pop eq _ ih =>
    obtain ⟨hheap, hidx⟩ := ih
    unfold EventQueue.pop
    split
    · exact ⟨hheap, hidx⟩
    · exact ⟨pop_heap hheap,
        sift_down_indexOK (indexOK_dropLast (indexOK_qswap hidx 0 (eq.queue.length - 1))) 0⟩
  | remove eq index _ hlen ih =>
    obtain ⟨hheap, hidx⟩ := ih
    constructor
    · exact remove_heap hheap index hlen
    · show IndexOK
        (if index < (qswap eq.queue index (eq.queue.length - 1)).dropLast.length then
          update (qswap eq.queue index (eq.queue.length - 1)).dropLast index
        else (qswap eq.queue index (eq.queue.length - 1)).dropLast)
      have hbase : IndexOK (qswap eq.queue index (eq.queue.length - 1)).dropLast :=
        indexOK_dropLast (indexOK_qswap hidx _ _)
      split
      · exact update_indexOK hbase index
      · exact hbase

/-! ### The popped event is the minimum -/

lemma heap_root_le {q : List Event} (hq : IsMinHeap q) :
    ∀ i, i < q.length → yAt q 0 ≤ yAt q i := by
  intro i
  induction i using Nat.strong_induction_on with
  | _ i ih =>
    intro hlen
    rcases Nat.eq_zero_or_pos i with rfl | h0
    · exact le_rfl
    · exact le_trans
        (ih (get_parent i) (get_parent_lt h0) (lt_trans (get_parent_lt h0) hlen))
        (hq i h0 hlen)

lemma yAt_eq_getElem {q : List Event} {k : Nat} (hk : k < q.length) :
    yAt q k = q[k].y := by
  unfold yAt
  rw [List.getElem?_eq_getElem hk]
  rfl

lemma pop_none_of_isEmpty {eq : EventQueue} (h : eq.queue = []) :
    (eq.pop).1 = none := by
  unfold EventQueue.pop
  rw [if_pos (List.isEmpty_iff.mpr h)]

lemma pop_spec {eq : EventQueue} (hq : IsMinHeap eq.queue) {e : Event}
    (he : (eq.pop).1 = some e) :
    (∀ e2 ∈ (eq.pop).2.queue, e.y ≤ e2.y)
    ∧ e.payload ::ₘ (((eq.pop).2.queue.map Event.payload : List _) : Multiset _)
        = ((eq.queue.map Event.payload : List _) : Multiset _) := by
  simp only [EventQueue.pop] at he ⊢
  by_cases hne : eq.queue.isEmpty
  · rw [if_pos hne] at he
    cases he
  · rw [if_neg hne] at he ⊢
    have hnil : eq.queue ≠ [] := fun h => hne (List.isEmpty_iff.mpr h)
    have hlen0 : 0 < eq.queue.length := List.length_pos.mpr hnil
    have hb : 0 < eq.queue.length ∧ eq.queue.length - 1 < eq.queue.length :=
      ⟨hlen0, by omega⟩
    have hq1len : (qswap eq.queue 0 (eq.queue.length - 1)).length
        = eq.queue.length := qswap_length _ _ _
    have hgl : (qswap eq.queue 0 (eq.queue.length - 1)).getLast?
        = some { eq.queue.get ⟨0, hlen0⟩ with index := eq.queue.length - 1 } := by
      rw [List.getLast?_eq_getElem?, hq1len]
      unfold qswap
      rw [dif_pos hb]
      rw [List.getElem?_set_eq (by simp; omega)]
    rw [hgl] at he
    have hey : e.y = yAt eq.queue 0 := by
      cases he
      rw [yAt_eq_getElem hlen0]
      rfl
    have hq1 : qswap eq.queue 0 (eq.queue.length - 1) ≠ [] := by
      intro h
      rw [h] at hq1len
      simp at hq1len
      omega
    have hsplit : (qswap eq.queue 0 (eq.queue.length - 1)).dropLast
        ++ [(qswap eq.queue 0 (eq.queue.length - 1)).getLast hq1]
        = qswap eq.queue 0 (eq.queue.length - 1) :=
      List.dropLast_append_getLast hq1
    have hglval : (qswap eq.queue 0 (eq.queue.length - 1)).getLast hq1 = e := by
      have h2 := List.getLast?_eq_getLast _ hq1
      rw [hgl] at h2
      cases he
      exact Option.some_injective _ h2.symm
    have hperm1 : ((sift_down (qswap eq.queue 0 (eq.queue.length - 1)).dropLast 0).map
        Event.payload).Perm
        (((qswap eq.queue 0 (eq.queue.length - 1)).dropLast).map Event.payload) :=
      sift_down_payload_perm _ _
    have hperm2 : ((qswap eq.queue 0 (eq.queue.length - 1)).map Event.payload).Perm
        (eq.queue.map Event.payload) := qswap_payload_perm _ _ _
    have hstep3 : ((qswap eq.queue 0 (eq.queue.length - 1)).dropLast).map Event.payload
        ++ [e.payload] = (qswap eq.queue 0 (eq.queue.length - 1)).map Event.payload := by
      rw [← hglval]
      rw [show [Event.payload ((qswap eq.queue 0 (eq.queue.length - 1)).getLast hq1)]
          = List.map Event.payload
            [(qswap eq.queue 0 (eq.queue.length - 1)).getLast hq1] from rfl]
      rw [← List.map_append, hsplit]
    have hmult : e.payload ::ₘ
        (((sift_down (qswap eq.queue 0 (eq.queue.length - 1)).dropLast 0).map
          Event.payload : List _) : Multiset _)
        = ((eq.queue.map Event.payload : List _) : Multiset _) := by
      rw [Multiset.cons_coe, Multiset.coe_eq_coe]
      refine (hperm1.cons e.payload).trans ?_
      refine (List.perm_append_singleton _ _).symm.trans ?_
      rw [hstep3]
      exact hperm2
    refine ⟨?_, hmult⟩
    intro e2 he2
    have hmem : e2.payload ∈ eq.queue.map Event.payload := by
      have h1 : e2.payload ∈ (((sift_down (qswap eq.queue 0
          (eq.queue.length - 1)).dropLast 0).map Event.payload : List _) : Multiset _) :=
        List.mem_map_of_mem _ he2
      have h2 := @Multiset.mem_cons_of_mem _ _ e.payload _ h1
      rw [hmult] at h2
      exact h2
    obtain ⟨a, ha, hap⟩ := List.mem_map.mp hmem
    obtain ⟨k, hk, hke⟩ := List.mem_iff_getElem.mp ha
    have hay : a.y = e2.y := congrArg (fun p => p.1) hap
    rw [hey, ← hay, ← hke, ← yAt_eq_getElem hk]
    exact heap_root_le hq k hk

/-! ### Removal by index and by handle -/

lemma qswap_last {q : List Event} (hlen0 : 0 < q.length) (index : Nat)
    (hidx : index < q.length) :
    (qswap q index (q.length - 1)).getLast?
      = some { q.get ⟨index, hidx⟩ with index := q.length - 1 } := by
  rw [List.getLast?_eq_getElem?, qswap_length]
  unfold qswap
  rw [dif_pos ⟨hidx, by omega⟩]
  rw [List.getElem?_set_eq (by simp; omega)]

lemma remove_event_payload {eq : EventQueue} {index : Nat}
    (hidx : index < eq.queue.length) :
    Event.payload (eq.queue.get ⟨index, hidx⟩) ::ₘ
      (((eq.remove_event index).queue.map Event.payload : List _) : Multiset _)
      = ((eq.queue.map Event.payload : List _) : Multiset _) := by
  have hlen0 : 0 < eq.queue.length := by omega
  have hq1len : (qswap eq.queue index (eq.queue.length - 1)).length
      = eq.queue.length := qswap_length _ _ _
  have hq1 : qswap eq.queue index (eq.queue.length - 1) ≠ [] := by
    intro h
    rw [h] at hq1len
    simp at hq1len
    omega
  have hsplit : (qswap eq.queue index (eq.queue.length - 1)).dropLast
      ++ [(qswap eq.queue index (eq.queue.length - 1)).getLast hq1]
      = qswap eq.queue index (eq.queue.length - 1) :=
    List.dropLast_append_getLast hq1
  have hglval : Event.payload ((qswap eq.queue index (eq.queue.length - 1)).getLast hq1)
      = Event.payload (eq.queue.get ⟨index, hidx⟩) := by
    have h2 := List.getLast?_eq_getLast _ hq1
    rw [qswap_last hlen0 index hidx] at h2
    rw [Option.some_injective _ h2.symm]
    rfl
  have hres : (((eq.remove_event index).queue).map Event.payload).Perm
      (((qswap eq.queue index (eq.queue.length - 1)).dropLast).map Event.payload) := by
    show ((if index < (qswap eq.queue index (eq.queue.length - 1)).dropLast.length then
        update (qswap eq.queue index (eq.queue.length - 1)).dropLast index
      else (qswap eq.queue index (eq.queue.length - 1)).dropLast).map Event.payload).Perm _
    split
    · exact update_payload_perm _ _
    · exact List.Perm.refl _
  have hperm2 : ((qswap eq.queue index (eq.queue.length - 1)).map Event.payload).Perm
      (eq.queue.map Event.payload) := qswap_payload_perm _ _ _
  rw [Multiset.cons_coe, Multiset.coe_eq_coe]
  refine (hres.cons _).trans ?_
  refine (List.perm_append_singleton _ _).symm.trans ?_
  have hstep3 : ((qswap eq.queue index (eq.queue.length - 1)).dropLast).map Event.payload
      ++ [Event.payload (eq.queue.get ⟨index, hidx⟩)]
      = (qswap eq.queue index (eq.queue.length - 1)).map Event.payload := by
    rw [← hglval]
    rw [show [Event.payload ((qswap eq.queue index (eq.queue.length - 1)).getLast hq1)]
        = List.map Event.payload
          [(qswap eq.queue index (eq.queue.length - 1)).getLast hq1] from rfl]
    rw [← List.map_append, hsplit]
  rw [hstep3]
  exact hperm2

/-! ### The two claim theorems about the queue -/

/-- C5: starting from `EventQueue::new` and applying any sequence of
`add_site_event`, `add_circle_event`, `remove_event` (at a live index) and
`pop` operations, `pop` returns `None` exactly on the empty queue, and
otherwise removes and returns an event whose `y` is ≤ the `y` of every event
remaining in the queue — the min-heap property of `event.rs`.  Consequently,
in a run where no event is pushed with a `y` below an already-popped event's
`y`, the sequence of popped `y` values is non-decreasing. -/
theorem event_queue_pop_min {eq : EventQueue} (h : Reachable eq) :
    (eq.queue = [] → (eq.pop).1 = none)
    ∧ (eq.queue ≠ [] → ∃ e, (eq.pop).1 = some e)
    ∧ ∀ e, (eq.pop).1 = some e →
        (∀ e2 ∈ (eq.pop).2.queue, e.y ≤ e2.y)
        ∧ e.payload ::ₘ (((eq.pop).2.queue.map Event.payload : List _) : Multiset _)
            = ((eq.queue.map Event.payload : List _) : Multiset _) := by
  refine ⟨pop_none_of_isEmpty, ?_, ?_⟩
  · intro hne
    have hlen0 : 0 < eq.queue.length := List.length_pos.mpr hne
    simp only [EventQueue.pop]
    rw [if_neg (fun hempty => hne (List.isEmpty_iff.mp hempty))]
    exact ⟨_, by rw [qswap_last hlen0 0 hlen0]⟩
  · intro e he
    exact pop_spec (reachable_inv h).1 he

/-- C9: cancelling a circle event through a handle (`lib.rs`,
`delete_event`) is a safe no-op when the handle is stale — the `Weak`
upgrade fails for an event already popped or already removed, and the queue
is left completely unchanged — and when the handle is live the removal takes
out exactly that one event and no other. -/
theorem delete_event_handle_spec {eq : EventQueue} (h : Reachable eq) (id : Nat) :
    (eq.upgrade id = none → remove_by_handle eq id = eq)
    ∧ ∀ e, eq.upgrade id = some e →
        e.payload ::ₘ (((remove_by_handle eq id).queue.map Event.payload : List _) : Multiset _)
          = ((eq.queue.map Event.payload : List _) : Multiset _) := by
  constructor
  · intro hnone
    unfold remove_by_handle
    rw [hnone]
  · intro e hsome
    obtain ⟨-, hidxOK⟩ := reachable_inv h
    have hmem : e ∈ eq.queue := List.mem_of_find?_eq_some hsome
    obtain ⟨k, hk, hke⟩ := List.mem_iff_getElem.mp hmem
    have hei : e.index = k :=
      hidxOK k e (by rw [List.getElem?_eq_getElem hk, hke])
    have hklt : e.index < eq.queue.length := by omega
    have hgete : eq.queue.get ⟨e.index, hklt⟩ = e := by
      subst hei
      simp only [List.get_eq_getElem]
      exact hke
    unfold remove_by_handle
    rw [hsome]
    have hrem := @remove_event_payload eq e.index hklt
    rw [hgete] at hrem
    exact hrem

/-- Witness for `event_queue_pop_min`: a queue reached by two pushes. -/
theorem event_queue_pop_min_witness :
    Reachable ((EventQueue.new.add_site_event 2 0).2.add_site_event 1 1).2
    ∧ ((((EventQueue.new.add_site_event 2 0).2.add_site_event 1 1).2.queue = [] →
        ((((EventQueue.new.add_site_event 2 0).2.add_site_event 1 1).2).pop).1 = none)
      ∧ ((((EventQueue.new.add_site_event 2 0).2.add_site_event 1 1).2.queue ≠ []) →
          ∃ e, ((((EventQueue.new.add_site_event 2 0).2.add_site_event 1 1).2).pop).1 = some e)
      ∧ ∀ e, ((((EventQueue.new.add_site_event 2 0).2.add_site_event 1 1).2).pop).1 = some e →
          (∀ e2 ∈ ((((EventQueue.new.add_site_event 2 0).2.add_site_event 1 1).2).pop).2.queue,
            e.y ≤ e2.y)
          ∧ e.payload ::ₘ
              (((((((EventQueue.new.add_site_event 2 0).2.add_site_event 1 1).2).pop).2.queue.map
                Event.payload : List _)) : Multiset _)
            = (((((EventQueue.new.add_site_event 2 0).2.add_site_event 1 1).2.queue.map
                Event.payload : List _)) : Multiset _)) :=
  have hr : Reachable ((EventQueue.new.add_site_event 2 0).2.add_site_event 1 1).2 :=
    Reachable.add_site _ 1 1 (Reachable.add_site _ 2 0 Reachable.new)
  ⟨hr, event_queue_pop_min hr⟩

/-- Witness for `delete_event_handle_spec` at the same queue, handle 0. -/
theorem delete_event_handle_spec_witness :
    Reachable ((EventQueue.new.add_site_event 2 0).2.add_site_event 1 1).2
    ∧ ((((EventQueue.new.add_site_event 2 0).2.add_site_event 1 1).2.upgrade 0 = none →
        remove_by_handle ((EventQueue.new.add_site_event 2 0).2.add_site_event 1 1).2 0
          = ((EventQueue.new.add_site_event 2 0).2.add_site_event 1 1).2)
      ∧ ∀ e, ((EventQueue.new.add_site_event 2 0).2.add_site_event 1 1).2.upgrade 0 = some e →
          e.payload ::ₘ
            (((remove_by_handle ((EventQueue.new.add_site_event 2 0).2.add_site_event 1 1).2
                0).queue.map Event.payload : List _) : Multiset _)
          = ((((EventQueue.new.add_site_event 2 0).2.add_site_event 1 1).2.queue.map
              Event.payload : List _) : Multiset _)) :=
  have hr : Reachable ((EventQueue.new.add_site_event 2 0).2.add_site_event 1 1).2 :=
    Reachable.add_site _ 1 1 (Reachable.add_site _ 2 0 Reachable.new)
  ⟨hr, delete_event_handle_spec hr 0⟩


theorem sift_up_zero (q : List Event) : sift_up q 0 = q := by
  rw [sift_up]
  simp

theorem sift_down_nil (i : Nat) : sift_down [] i = [] := by
  rw [sift_down]
  simp [sd_target, get_left, get_right]

theorem generate_diagram_single_point_eval (sqrt : ℚ → ℚ) (p : Vector2) :
    generate_diagram sqrt 2 [p]
      = Except.ok ⟨[⟨p, some 0⟩], [⟨some 0, none⟩], [], []⟩ := by
  simp [generate_diagram, Voronoi.new, Voronoi.add_site_for_point,
    Voronoi.set_site_face, Voronoi.get_site_point, EventQueue.new,
    EventQueue.add_site_event, sift_up_zero, EventQueue.pop, qswap,
    sift_down_nil, event_loop, handle_event, handle_site_event, lift,
    Beachline.new, Beachline.has_root, Beachline.create_root,
    Beachline.insert_arc, Beachline.updArc, Arc.new, updAt, List.range_succ,
    Except.bind, Except.map, Except.pure, bind, Bind.bind, pure, Pure.pure]

theorem sift_down_singleton (e : Event) : sift_down [e] 0 = [e] := by
  rw [sift_down]
  simp [sd_target, get_left, get_right]

theorem sift_up_one_of_ge (a b : Event) (h : a.y ≤ b.y) :
    sift_up [a, b] 1 = [a, b] := by
  rw [sift_up, if_neg]
  simp only [not_and]
  intro _
  simp [yAt, get_parent]
  exact h

theorem locate_duplicate (sqrt : ℚ → ℚ) (bl : Beachline) (point : Vector2)
    (y : ℚ) (v : Voronoi) (fuel cur site : Nat) (focus : Vector2)
    (h1 : bl.get_site cur = some (some site))
    (h2 : v.get_site_point site = some focus)
    (hy : focus.y = y) (hx : focus.x = point.x) :
    Beachline.locate_arc_above sqrt bl point y v (fuel + 1) cur
      = Except.error Panic.duplicateSite := by
  rw [Beachline.locate_arc_above]
  simp [h1, h2, hy, hx, lift, Except.bind, Bind.bind]

theorem generate_diagram_duplicate (sqrt : ℚ → ℚ) :
    generate_diagram sqrt 3 [⟨1/2, 1/2⟩, ⟨1/2, 1/2⟩]
      = Except.error Panic.duplicateSite := by
  simp [generate_diagram, Voronoi.new, Voronoi.add_site_for_point,
    Voronoi.set_site_face, Voronoi.get_site_point, EventQueue.new,
    EventQueue.add_site_event, sift_up_zero, sift_up_one_of_ge,
    EventQueue.pop, qswap, sift_down_nil, sift_down_singleton, event_loop,
    handle_event, handle_site_event, lift, Beachline.new, Beachline.has_root,
    Beachline.create_root, Beachline.insert_arc, Beachline.updArc, Arc.new,
    updAt, List.range_succ, Except.bind, Except.map, Except.pure, bind,
    Bind.bind, pure, Pure.pure, Beachline.locate_arc_above,
    Beachline.get_site, Beachline.getArc, Beachline.get_left,
    Beachline.get_right, Beachline.get_prev, Beachline.get_next,
    delete_event, Beachline.get_arc_event]

theorem sift_up_stop (q : List Event) (i : Nat)
    (h : ¬(0 < i ∧ yAt q i < yAt q (get_parent i))) : sift_up q i = q := by
  rw [sift_up, if_neg h]

theorem sift_down_stop (q : List Event) (i : Nat)
    (h : sd_target q i = i) : sift_down q i = q := by
  rw [sift_down, dif_pos h]

/-- C4: the spec requires the beachline tree to be self-balancing with the
red-black invariants preserved by arc insertion and deletion.  Refuted:
`insert_before` hangs a red arc under a red arc without any fixup
(`insertFixup` is commented out in the source), and `remove_arc` deletes a
black leaf from a valid red-black tree leaving unequal black heights (the
source carries a `TODO check if tree need rebalancing`). -/
theorem beachline_insert_breaks_red_black :
    ∃ b1 b2 b4 : Beachline,
      rbDemo1 = Except.ok b1 ∧ rbDemo2 = Except.ok b2
        ∧ rbDemo4 = Except.ok b4
        ∧ rbValid rbDemo0 2 = true
        ∧ rbValid b1 3 = true
        ∧ rbValid b2 4 = false
        ∧ b1.get_color 1 = some Color.red
        ∧ b2.get_color 1 = some Color.red
        ∧ b2.get_color 2 = some Color.red
        ∧ rbValid rbDemo3 4 = true
        ∧ rbValid b4 4 = false :=
  ⟨_, _, _, rfl, rfl, rfl, rfl, rfl, rfl, rfl, rfl, rfl, rfl, rfl⟩

/-- Counterexample for C8: after `add_edge` builds a twinned pair,
`remove_half_edge` on one of the two (as the clipping stage does) leaves the
survivor with a twin pointer to a missing half-edge, so the claimed
invariant twin(twin(e)) = e fails for it. -/
theorem remove_half_edge_strands_twin :
    TwinOK twinDemo1.2 ∧ ¬ TwinOK twinDemo2 := by
  constructor
  · intro p hp t ht
    simp [twinDemo1, twinDemo0, Diagram.new, Diagram.add_face, Diagram.add_edge,
      Diagram.add_half_edge, Diagram.get_face_outer_component,
      Diagram.flookup, Diagram.set_face_outer_component, Diagram.fupd,
      Diagram.set_half_edge_twin, Diagram.hupd, DiagHalfEdge.new] at hp
    rcases hp with h | h <;> subst h <;> simp at ht <;> subst ht
    · exact ⟨by decide, ⟨1, ⟨none, none, some 1, some 0, none, none⟩⟩,
        by simp [twinDemo1, twinDemo0, Diagram.new, Diagram.add_face,
          Diagram.add_edge, Diagram.add_half_edge,
          Diagram.get_face_outer_component, Diagram.flookup,
          Diagram.set_face_outer_component, Diagram.fupd,
          Diagram.set_half_edge_twin, Diagram.hupd, DiagHalfEdge.new],
        rfl, rfl⟩
    · exact ⟨by decide, ⟨0, ⟨none, none, some 0, some 1, none, none⟩⟩,
        by simp [twinDemo1, twinDemo0, Diagram.new, Diagram.add_face,
          Diagram.add_edge, Diagram.add_half_edge,
          Diagram.get_face_outer_component, Diagram.flookup,
          Diagram.set_face_outer_component, Diagram.fupd,
          Diagram.set_half_edge_twin, Diagram.hupd, DiagHalfEdge.new],
        rfl, rfl⟩
  · intro h
    have := h (1, ⟨none, none, some 1, some 0, none, none⟩)
      (by simp [twinDemo2, twinDemo1, twinDemo0, Diagram.new, Diagram.add_face,
        Diagram.add_edge, Diagram.add_half_edge,
        Diagram.get_face_outer_component, Diagram.flookup,
        Diagram.set_face_outer_component, Diagram.fupd,
        Diagram.set_half_edge_twin, Diagram.hupd,
        Diagram.remove_half_edge, DiagHalfEdge.new]) 0 rfl
    rcases this with ⟨-, q, hq, hq1, -⟩
    simp [twinDemo2, twinDemo1, twinDemo0, Diagram.new, Diagram.add_face,
      Diagram.add_edge, Diagram.add_half_edge,
      Diagram.get_face_outer_component, Diagram.flookup,
      Diagram.set_face_outer_component, Diagram.fupd,
      Diagram.set_half_edge_twin, Diagram.hupd,
      Diagram.remove_half_edge, DiagHalfEdge.new] at hq
    subst hq
    simp at hq1

theorem find?_key_lt_none (l : List (Nat × DiagHalfEdge)) (k : Nat)
    (h : ∀ p ∈ l, p.1 < k) : l.find? (fun p => p.1 == k) = none := by
  rw [List.find?_eq_none]
  intro x hx
  simpa using Nat.ne_of_lt (h x hx)

theorem hlookup_hupd (d : Diagram) (k : Nat) (f : DiagHalfEdge → DiagHalfEdge)
    (k' : Nat) :
    (d.hupd k f).hlookup k'
      = (d.hlookup k').map (fun e => if k' = k then f e else e) := by
  unfold Diagram.hlookup Diagram.hupd
  rw [show ({ d with half_edges :=
      d.half_edges.map (fun p => if p.1 = k then (p.1, f p.2) else p) } :
      Diagram).half_edges
    = d.half_edges.map (fun p => if p.1 = k then (p.1, f p.2) else p) from rfl]
  rw [List.find?_map]
  have hpred : ((fun p : Nat × DiagHalfEdge => p.1 == k')
      ∘ (fun p => if p.1 = k then (p.1, f p.2) else p))
      = fun p : Nat × DiagHalfEdge => p.1 == k' := by
    funext p
    by_cases h1 : p.1 = k <;> simp [h1]
  rw [hpred]
  cases hf : d.half_edges.find? (fun p => p.1 == k') with
  | none => simp
  | some a =>
    have ha := List.find?_some hf
    simp only [beq_iff_eq] at ha
    by_cases h1 : k' = k
    · subst h1
      simp [ha]
    · have : a.1 ≠ k := by rw [ha]; exact h1
      simp [this, h1]

theorem add_half_edge_fst (d : Diagram) (f : Nat) :
    (d.add_half_edge f).1 = d.next_half_edge := by
  simp only [Diagram.add_half_edge]
  split <;> rfl

theorem add_half_edge_next (d : Diagram) (f : Nat) :
    (d.add_half_edge f).2.next_half_edge = d.next_half_edge + 1 := by
  simp only [Diagram.add_half_edge]
  split <;> rfl

theorem add_half_edge_halfEdges (d : Diagram) (f : Nat) :
    (d.add_half_edge f).2.half_edges
      = d.half_edges ++ [(d.next_half_edge, DiagHalfEdge.new f)] := by
  simp only [Diagram.add_half_edge, Diagram.set_face_outer_component,
    Diagram.fupd]
  split <;> rfl

theorem add_edge_fst1 (d : Diagram) (fl fr : Nat) :
    (d.add_edge fl fr).1.1 = d.next_half_edge := by
  simp only [Diagram.add_edge]
  exact add_half_edge_fst d fl

theorem add_edge_fst2 (d : Diagram) (fl fr : Nat) :
    (d.add_edge fl fr).1.2 = d.next_half_edge + 1 := by
  simp only [Diagram.add_edge]
  rw [add_half_edge_fst, add_half_edge_next]

theorem add_edge_halfEdges (d : Diagram) (fl fr : Nat) (hk : HKeysOK d) :
    (d.add_edge fl fr).2.half_edges
      = d.half_edges
        ++ [(d.next_half_edge,
              ⟨none, none, some fl, some (d.next_half_edge + 1), none, none⟩),
            (d.next_half_edge + 1,
              ⟨none, none, some fr, some d.next_half_edge, none, none⟩)] := by
  simp only [Diagram.add_edge, Diagram.set_half_edge_twin, Diagram.hupd]
  rw [add_half_edge_halfEdges, add_half_edge_halfEdges, add_half_edge_next,
    add_half_edge_fst, add_half_edge_fst, add_half_edge_next]
  rw [List.map_map, List.append_assoc, List.map_append, List.map_append]
  have hid : ∀ p ∈ d.half_edges,
      ((fun p : Nat × DiagHalfEdge =>
          if p.1 = d.next_half_edge + 1 then (p.1, { p.2 with twin := some d.next_half_edge }) else p)
        ∘ (fun p : Nat × DiagHalfEdge =>
          if p.1 = d.next_half_edge then (p.1, { p.2 with twin := some (d.next_half_edge + 1) }) else p)) p
      = p := by
    intro p hp
    have h1 : p.1 ≠ d.next_half_edge := Nat.ne_of_lt (hk p hp)
    have h2 : p.1 ≠ d.next_half_edge + 1 := by
      have := hk p hp
      omega
    simp [h1, h2]
  rw [List.map_congr_left hid, List.map_id']
  congr 1
  simp [DiagHalfEdge.new]

theorem twinOK_hupd (d : Diagram) (k : Nat) (f : DiagHalfEdge → DiagHalfEdge)
    (hf : ∀ a, (f a).twin = a.twin) (h : TwinOK d) : TwinOK (d.hupd k f) := by
  intro p hp t ht
  simp only [Diagram.hupd] at hp
  rcases List.mem_map.1 hp with ⟨a, ha, hga⟩
  have hkey : p.1 = a.1 := by
    rw [← hga]
    by_cases h1 : a.1 = k <;> simp [h1]
  have htw : p.2.twin = a.2.twin := by
    rw [← hga]
    by_cases h1 : a.1 = k <;> simp [h1, hf]
  rcases h a ha t (htw ▸ ht) with ⟨hne, q, hq, hq1, hq2⟩
  refine ⟨hkey ▸ hne, (if q.1 = k then (q.1, f q.2) else q),
    List.mem_map_of_mem _ hq, ?_, ?_⟩
  · by_cases h1 : q.1 = k
    · rw [if_pos h1]
      exact hq1
    · rw [if_neg h1]
      exact hq1
  · by_cases h1 : q.1 = k
    · rw [if_pos h1]
      show (f q.2).twin = some p.1
      rw [hf, hq2, hkey]
    · rw [if_neg h1]
      rw [hq2, hkey]

theorem twinOK_add_half_edge (d : Diagram) (f : Nat) (h : TwinOK d) :
    TwinOK (d.add_half_edge f).2 := by
  intro p hp t ht
  rw [add_half_edge_halfEdges] at hp
  rcases List.mem_append.1 hp with hp | hp
  · rcases h p hp t ht with ⟨hne, q, hq, hq1, hq2⟩
    refine ⟨hne, q, ?_, hq1, hq2⟩
    rw [add_half_edge_halfEdges]
    exact List.mem_append_left _ hq
  · simp only [List.mem_singleton] at hp
    rw [hp] at ht
    simp [DiagHalfEdge.new] at ht

theorem twinOK_add_edge (d : Diagram) (fl fr : Nat) (hk : HKeysOK d)
    (h : TwinOK d) : TwinOK (d.add_edge fl fr).2 := by
  intro p hp t ht
  rw [add_edge_halfEdges d fl fr hk] at hp
  rcases List.mem_append.1 hp with hp | hp
  · rcases h p hp t ht with ⟨hne, q, hq, hq1, hq2⟩
    refine ⟨hne, q, ?_, hq1, hq2⟩
    rw [add_edge_halfEdges d fl fr hk]
    exact List.mem_append_left _ hq
  · simp only [List.mem_cons, List.not_mem_nil, or_false] at hp
    rcases hp with hp | hp
    · rw [hp] at ht ⊢
      simp only at ht
      cases ht
      refine ⟨by omega, (d.next_half_edge + 1,
        ⟨none, none, some fr, some d.next_half_edge, none, none⟩), ?_, rfl, rfl⟩
      rw [add_edge_halfEdges d fl fr hk]
      simp
    · rw [hp] at ht ⊢
      simp only at ht
      cases ht
      refine ⟨by omega, (d.next_half_edge,
        ⟨none, none, some fl, some (d.next_half_edge + 1), none, none⟩), ?_, rfl, rfl⟩
      rw [add_edge_halfEdges d fl fr hk]
      simp

theorem add_edge_lookups (d : Diagram) (fl fr : Nat) (hk : HKeysOK d) :
    (d.add_edge fl fr).2.hlookup (d.add_edge fl fr).1.1
        = some ⟨none, none, some fl, some ((d.add_edge fl fr).1.2), none, none⟩
      ∧ (d.add_edge fl fr).2.hlookup (d.add_edge fl fr).1.2
        = some ⟨none, none, some fr, some ((d.add_edge fl fr).1.1), none, none⟩
      ∧ d.hlookup (d.add_edge fl fr).1.1 = none
      ∧ d.hlookup (d.add_edge fl fr).1.2 = none := by
  rw [add_edge_fst1, add_edge_fst2]
  have hn1 : d.half_edges.find? (fun p => p.1 == d.next_half_edge) = none :=
    find?_key_lt_none _ _ hk
  have hn2 : d.half_edges.find? (fun p => p.1 == d.next_half_edge + 1) = none :=
    find?_key_lt_none _ _ (fun p hp => by have := hk p hp; omega)
  unfold Diagram.hlookup
  rw [add_edge_halfEdges d fl fr hk, List.find?_append, List.find?_append,
    hn1, hn2]
  refine ⟨?_, ?_, by simp [hn1], by simp [hn2]⟩
  · simp
  · simp

theorem updAt_getElem {α : Type} (l : List α) (i : Nat) (f : α → α) (j : Nat) :
    (updAt l i f)[j]? = if j = i then (l[j]?).map f else l[j]? := by
  unfold updAt
  cases h : l[i]? with
  | none =>
    by_cases hj : j = i <;> simp [hj, h]
  | some a =>
    have hi : i < l.length := by
      by_contra hc
      rw [List.getElem?_eq_none (Nat.le_of_not_lt hc)] at h
      cases h
    by_cases hj : j = i
    · subst hj
      simp [List.getElem?_set, hi, h]
    · have hij : i ≠ j := fun hh => hj hh.symm
      simp [List.getElem?_set, hij, hj]

theorem create_half_edge_fst (v : Voronoi) (f : Nat) :
    (v.create_half_edge f).1 = v.half_edges.length := by
  simp only [Voronoi.create_half_edge]
  split <;> rfl

theorem create_half_edge_halfEdges (v : Voronoi) (f : Nat) :
    (v.create_half_edge f).2.half_edges = v.half_edges ++ [HalfEdge.new f] := by
  simp only [Voronoi.create_half_edge, Voronoi.set_face_outer_component]
  split <;> rfl

theorem voronoi_add_edge_spec (v : Voronoi) (ls rs e1 e2 : Nat) (v' : Voronoi)
    (h : v.add_edge ls rs = Except.ok (e1, e2, v')) :
    e1 ≠ e2
      ∧ v'.get_half_edge_twin e1 = some (some e2)
      ∧ v'.get_half_edge_twin e2 = some (some e1)
      ∧ v.get_half_edge_twin e1 = none
      ∧ v.get_half_edge_twin e2 = none
      ∧ ∃ fl fr, v.get_site_face ls = some (some fl)
          ∧ v.get_site_face rs = some (some fr)
          ∧ v'.half_edges[e1]? = some ⟨none, none, some e2, some fl, none, none⟩
          ∧ v'.half_edges[e2]? = some ⟨none, none, some e1, some fr, none, none⟩ := by
  unfold Voronoi.add_edge at h
  cases hA : v.get_site_face ls with
  | none =>
    rw [hA] at h
    simp [lift, Except.bind, bind] at h
  | some fo =>
    rw [hA] at h
    cases fo with
    | none => simp [lift, Except.bind, bind] at h
    | some fl =>
      cases hB : v.get_site_face rs with
      | none =>
        rw [hB] at h
        simp [lift, Except.bind, bind] at h
      | some go =>
        rw [hB] at h
        cases go with
        | none => simp [lift, Except.bind, bind] at h
        | some fr =>
          simp only [lift, Except.bind, bind, pure, Except.pure,
            Except.ok.injEq, Prod.mk.injEq] at h
          obtain ⟨he1, he2, hv⟩ := h
          rw [create_half_edge_fst] at he1
          rw [create_half_edge_fst, create_half_edge_halfEdges,
            List.length_append] at he2
          simp only [List.length_singleton] at he2
          subst he1
          subst he2
          subst hv
          have hfst2 : ((v.create_half_edge fl).2.create_half_edge fr).1
              = v.half_edges.length + 1 := by
            rw [create_half_edge_fst, create_half_edge_halfEdges,
              List.length_append]
            simp
          have hbase : ((v.create_half_edge fl).2.create_half_edge fr).2.half_edges
              = v.half_edges ++ [HalfEdge.new fl] ++ [HalfEdge.new fr] := by
            rw [create_half_edge_halfEdges, create_half_edge_halfEdges]
          have hb1 : (v.half_edges ++ [HalfEdge.new fl]
              ++ [HalfEdge.new fr])[v.half_edges.length]?
              = some (HalfEdge.new fl) := by
            rw [List.getElem?_append, if_pos (by simp),
              List.getElem?_append, if_neg (by omega)]
            simp
          have hb2 : (v.half_edges ++ [HalfEdge.new fl]
              ++ [HalfEdge.new fr])[v.half_edges.length + 1]?
              = some (HalfEdge.new fr) := by
            rw [List.getElem?_append, if_neg (by simp)]
            simp
          refine ⟨by omega, ?_, ?_, ?_, ?_, fl, fr, rfl, rfl, ?_, ?_⟩
          · simp only [Voronoi.get_half_edge_twin, Voronoi.set_half_edge_twin,
              hfst2, create_half_edge_fst, hbase]
            rw [updAt_getElem, if_neg (by omega), updAt_getElem, if_pos rfl,
              hb1]
            rfl
          · simp only [Voronoi.get_half_edge_twin, Voronoi.set_half_edge_twin,
              hfst2, create_half_edge_fst, hbase]
            rw [updAt_getElem, if_pos rfl, updAt_getElem, if_neg (by omega),
              hb2]
            rfl
          · simp only [Voronoi.get_half_edge_twin]
            rw [List.getElem?_eq_none (Nat.le_refl _)]
            rfl
          · simp only [Voronoi.get_half_edge_twin]
            rw [List.getElem?_eq_none (by omega)]
            rfl
          · simp only [Voronoi.set_half_edge_twin, hfst2,
              create_half_edge_fst, hbase]
            rw [updAt_getElem, if_neg (by omega), updAt_getElem, if_pos rfl,
              hb1]
            rfl
          · simp only [Voronoi.set_half_edge_twin, hfst2,
              create_half_edge_fst, hbase]
            rw [updAt_getElem, if_pos rfl, updAt_getElem, if_neg (by omega),
              hb2]
            rfl

/-- C8 (amended): `add_edge` on either DCEL returns two distinct freshly
created half-edges, mutual twins, incident to the two given faces and
otherwise unpopulated; and every diagram operation EXCEPT
`remove_half_edge` preserves the invariant that a set twin pointer is
non-self-referential and its target points back (`remove_half_edge` can
strand the surviving twin, see the counterexample). -/
theorem diagram_add_edge_twin_pair :
    (∀ (d : Diagram) (fl fr : Nat), HKeysOK d →
        (d.add_edge fl fr).1.1 ≠ (d.add_edge fl fr).1.2
        ∧ (d.add_edge fl fr).2.hlookup (d.add_edge fl fr).1.1
            = some ⟨none, none, some fl, some ((d.add_edge fl fr).1.2),
                none, none⟩
        ∧ (d.add_edge fl fr).2.hlookup (d.add_edge fl fr).1.2
            = some ⟨none, none, some fr, some ((d.add_edge fl fr).1.1),
                none, none⟩
        ∧ d.hlookup (d.add_edge fl fr).1.1 = none
        ∧ d.hlookup (d.add_edge fl fr).1.2 = none)
    ∧ (∀ (d : Diagram) (fl fr : Nat), HKeysOK d → TwinOK d →
        TwinOK (d.add_edge fl fr).2)
    ∧ (∀ (d : Diagram) (f : Nat), TwinOK d → TwinOK (d.add_half_edge f).2)
    ∧ (∀ (d : Diagram) (p : Vector2), TwinOK d → TwinOK (d.add_face p))
    ∧ (∀ (d : Diagram) (p : Vector2), TwinOK d → TwinOK (d.add_vertex p).2)
    ∧ (∀ (d : Diagram) (k : Nat), TwinOK d → TwinOK (d.remove_vertex k))
    ∧ (∀ (d : Diagram) (a b : Nat), TwinOK d →
        TwinOK (d.link_half_edges a b))
    ∧ (∀ (d : Diagram) (k : Nat) (o : Option Nat), TwinOK d →
        TwinOK (d.set_half_edge_origin k o))
    ∧ (∀ (d : Diagram) (k : Nat) (o : Option Nat), TwinOK d →
        TwinOK (d.set_half_edge_destination k o))
    ∧ (∀ (d : Diagram) (k : Nat) (o : Option Nat), TwinOK d →
        TwinOK (d.set_half_edge_prev k o))
    ∧ (∀ (d : Diagram) (k : Nat) (o : Option Nat), TwinOK d →
        TwinOK (d.set_half_edge_next k o))
    ∧ (∀ (v : Voronoi) (ls rs e1 e2 : Nat) (v' : Voronoi),
        v.add_edge ls rs = Except.ok (e1, e2, v') →
          e1 ≠ e2 ∧ v'.get_half_edge_twin e1 = some (some e2)
            ∧ v'.get_half_edge_twin e2 = some (some e1)) := by
  refine ⟨?_, twinOK_add_edge, twinOK_add_half_edge,
    fun d p h => h, fun d p h => h, fun d k h => h,
    fun d a b h => twinOK_hupd _ _ _ (fun a => rfl)
      (twinOK_hupd _ _ _ (fun a => rfl) h),
    fun d k o h => twinOK_hupd _ _ _ (fun a => rfl) h,
    fun d k o h => twinOK_hupd _ _ _ (fun a => rfl) h,
    fun d k o h => twinOK_hupd _ _ _ (fun a => rfl) h,
    fun d k o h => twinOK_hupd _ _ _ (fun a => rfl) h,
    fun v ls rs e1 e2 v' h => ?_⟩
  · intro d fl fr hk
    have hl := add_edge_lookups d fl fr hk
    refine ⟨?_, hl.1, hl.2.1, hl.2.2.1, hl.2.2.2⟩
    rw [add_edge_fst1, add_edge_fst2]
    omega
  · have := voronoi_add_edge_spec v ls rs e1 e2 v' h
    exact ⟨this.1, this.2.1, this.2.2.1⟩

/-- Witness for C8: the hypotheses hold at a concrete two-face diagram. -/
theorem diagram_add_edge_twin_pair_witness :
    HKeysOK twinDemo0 ∧ TwinOK twinDemo0 ∧ TwinOK (twinDemo0.add_edge 0 1).2 := by
  have hk : HKeysOK twinDemo0 := by
    intro p hp
    simp [twinDemo0, Diagram.new, Diagram.add_face] at hp
  have ht : TwinOK twinDemo0 := by
    intro p hp
    simp [twinDemo0, Diagram.new, Diagram.add_face] at hp
  exact ⟨hk, ht, diagram_add_edge_twin_pair.2.1 twinDemo0 0 1 hk ht⟩

/-- C6: two exactly coincident input points make construction fail with
`DuplicateSite`: whenever arc location reaches an arc whose focus lies
exactly on the sweep line with the same x as the new site, it panics with
the duplicate-site error; and the two-point input (0.5,0.5), (0.5,0.5)
fails exactly this way. -/
theorem duplicate_site_error :
    (∀ (sqrt : ℚ → ℚ) (bl : Beachline) (point : Vector2) (y : ℚ)
        (v : Voronoi) (fuel cur site : Nat) (focus : Vector2),
        bl.get_site cur = some (some site) →
        v.get_site_point site = some focus →
        focus.y = y → focus.x = point.x →
        Beachline.locate_arc_above sqrt bl point y v (fuel + 1) cur
          = Except.error Panic.duplicateSite)
    ∧ ∀ sqrt : ℚ → ℚ, generate_diagram sqrt 3 [⟨1/2, 1/2⟩, ⟨1/2, 1/2⟩]
        = Except.error Panic.duplicateSite :=
  ⟨fun sqrt bl point y v fuel cur site focus h1 h2 hy hx =>
    locate_duplicate sqrt bl point y v fuel cur site focus h1 h2 hy hx,
   generate_diagram_duplicate⟩

/-- Witness for C6: the location hypotheses hold at the beachline and
diagram reached after the first of the two coincident sites. -/
theorem duplicate_site_error_witness :
    (Beachline.new.create_root 0).get_site 0 = some (some 0)
    ∧ (Voronoi.new [⟨1/2, 1/2⟩, ⟨1/2, 1/2⟩]).get_site_point 0
        = some ⟨1/2, 1/2⟩
    ∧ Beachline.locate_arc_above id (Beachline.new.create_root 0)
        ⟨1/2, 1/2⟩ (1/2) (Voronoi.new [⟨1/2, 1/2⟩, ⟨1/2, 1/2⟩]) 1 0
        = Except.error Panic.duplicateSite
    ∧ generate_diagram id 3 [⟨1/2, 1/2⟩, ⟨1/2, 1/2⟩]
        = Except.error Panic.duplicateSite :=
  ⟨rfl, rfl,
    duplicate_site_error.1 id (Beachline.new.create_root 0) ⟨1/2, 1/2⟩
      (1/2) (Voronoi.new [⟨1/2, 1/2⟩, ⟨1/2, 1/2⟩]) 0 0 0 ⟨1/2, 1/2⟩
      rfl rfl rfl rfl,
    duplicate_site_error.2 id⟩

/-- C10: for a single input point `generate_diagram` returns a diagram with
exactly one face, that face's outer component unset, and no half-edges and
no vertices, so no outer-cycle walk can start. -/
theorem single_point_diagram (sqrt : ℚ → ℚ) (p : Vector2) :
    ∃ v : Voronoi, generate_diagram sqrt 2 [p] = Except.ok v
      ∧ v.faces.length = 1
      ∧ v.get_face_outer_component 0 = some none
      ∧ v.half_edges = [] ∧ v.vertices = [] :=
  ⟨⟨[⟨p, some 0⟩], [⟨some 0, none⟩], [], []⟩,
    generate_diagram_single_point_eval sqrt p, rfl, rfl, rfl, rfl⟩

/-- Pushing a site event onto an empty queue. -/
theorem push_site_empty (n : Nat) (y : ℚ) (f : Nat) :
    EventQueue.add_site_event ⟨[], n⟩ y f = (n, ⟨[⟨y, 0, n, .site f⟩], n + 1⟩) := by
  simp [EventQueue.add_site_event, sift_up_zero]

/-- Pushing a site event whose `y` ties the single stored event: the heap
leaves it in the last slot. -/
theorem push_site_one (n a : Nat) (ta : EventType) (y : ℚ) (f : Nat) :
    EventQueue.add_site_event ⟨[⟨y, 0, a, ta⟩], n⟩ y f
      = (n, ⟨[⟨y, 0, a, ta⟩, ⟨y, 1, n, .site f⟩], n + 1⟩) := by
  simp [EventQueue.add_site_event]
  exact sift_up_stop _ _ (by simp [yAt, get_parent])

/-- Same, with two stored events of the same `y`. -/
theorem push_site_two (n a b : Nat) (ta tb : EventType) (y : ℚ) (f : Nat) :
    EventQueue.add_site_event ⟨[⟨y, 0, a, ta⟩, ⟨y, 1, b, tb⟩], n⟩ y f
      = (n, ⟨[⟨y, 0, a, ta⟩, ⟨y, 1, b, tb⟩, ⟨y, 2, n, .site f⟩], n + 1⟩) := by
  simp [EventQueue.add_site_event]
  exact sift_up_stop _ _ (by simp [yAt, get_parent])

/-- Same, with three stored events of the same `y`. -/
theorem push_site_three (n a b c : Nat) (ta tb tc : EventType) (y : ℚ) (f : Nat) :
    EventQueue.add_site_event
        ⟨[⟨y, 0, a, ta⟩, ⟨y, 1, b, tb⟩, ⟨y, 2, c, tc⟩], n⟩ y f
      = (n, ⟨[⟨y, 0, a, ta⟩, ⟨y, 1, b, tb⟩, ⟨y, 2, c, tc⟩,
          ⟨y, 3, n, .site f⟩], n + 1⟩) := by
  simp [EventQueue.add_site_event]
  exact sift_up_stop _ _ (by simp [yAt, get_parent])

/-- Popping a four-event all-ties queue: the root leaves, the last event is
swapped into slot 0 and stays (its children tie). -/
theorem pop_four_ties (n a b c d : Nat) (ta tb tc td : EventType) (y : ℚ) :
    EventQueue.pop ⟨[⟨y, 0, a, ta⟩, ⟨y, 1, b, tb⟩, ⟨y, 2, c, tc⟩,
        ⟨y, 3, d, td⟩], n⟩
      = (some ⟨y, 3, a, ta⟩,
          ⟨[⟨y, 0, d, td⟩, ⟨y, 1, b, tb⟩, ⟨y, 2, c, tc⟩], n⟩) := by
  have hsd : sift_down [⟨y, 0, d, td⟩, ⟨y, 1, b, tb⟩, ⟨y, 2, c, tc⟩] 0
      = [⟨y, 0, d, td⟩, ⟨y, 1, b, tb⟩, ⟨y, 2, c, tc⟩] :=
    sift_down_stop _ _ (by simp [sd_target, get_left, get_right, yAt])
  have hsw : qswap [⟨y, 0, a, ta⟩, ⟨y, 1, b, tb⟩, ⟨y, 2, c, tc⟩,
      ⟨y, 3, d, td⟩] 0 3
      = [⟨y, 0, d, td⟩, ⟨y, 1, b, tb⟩, ⟨y, 2, c, tc⟩, ⟨y, 3, a, ta⟩] := rfl
  simp [EventQueue.pop, hsw, hsd]

/-- Popping a three-event all-ties queue. -/
theorem pop_three_ties (n a b c : Nat) (ta tb tc : EventType) (y : ℚ) :
    EventQueue.pop ⟨[⟨y, 0, a, ta⟩, ⟨y, 1, b, tb⟩, ⟨y, 2, c, tc⟩], n⟩
      = (some ⟨y, 2, a, ta⟩, ⟨[⟨y, 0, c, tc⟩, ⟨y, 1, b, tb⟩], n⟩) := by
  have hsd : sift_down [⟨y, 0, c, tc⟩, ⟨y, 1, b, tb⟩] 0
      = [⟨y, 0, c, tc⟩, ⟨y, 1, b, tb⟩] :=
    sift_down_stop _ _ (by simp [sd_target, get_left, get_right, yAt])
  have hsw : qswap [⟨y, 0, a, ta⟩, ⟨y, 1, b, tb⟩, ⟨y, 2, c, tc⟩] 0 2
      = [⟨y, 0, c, tc⟩, ⟨y, 1, b, tb⟩, ⟨y, 2, a, ta⟩] := rfl
  simp [EventQueue.pop, hsw, hsd]

/-- A site event handled on an empty beachline creates the root arc. -/
theorem handle_site_no_root (sqrt : ℚ → ℚ) (site : Nat) (v : Voronoi)
    (y : ℚ) (eq : EventQueue)
    (h : (v.get_site_point site).isSome = true) :
    handle_site_event sqrt site v Beachline.new y eq
      = Except.ok (v, Beachline.new.create_root site, eq) := by
  obtain ⟨pt, hpt⟩ := Option.isSome_iff_exists.1 h
  simp [handle_site_event, lift, hpt, Beachline.has_root, Beachline.new,
    Except.bind, bind, pure, Except.pure]

/-- Locating above a one-arc beachline whose focus lies exactly on the
sweep line, for a site strictly to the right: the walk moves to the leaf's
absent right child and the unwrap panics. -/
theorem locate_single_arc_right (sqrt : ℚ → ℚ) (v : Voronoi) (p f : Vector2)
    (y : ℚ) (s : Nat) (hf : v.get_site_point s = some f) (hy : f.y = y)
    (hx : f.x < p.x) :
    Beachline.locate_arc_above sqrt (Beachline.new.create_root s) p y v 2 0
      = Except.error Panic.unwrapNone := by
  rw [show (2 : Nat) = 1 + 1 from rfl, Beachline.locate_arc_above]
  simp [lift, hf, hy, hx, asymm hx, Beachline.create_root, Beachline.new,
    Beachline.insert_arc, Beachline.updArc, Arc.new, Beachline.getArc,
    Beachline.get_site, Beachline.get_right, Except.bind, bind]

/-- The root id, root presence and arc count of a one-arc beachline. -/
theorem create_root_new_root (s : Nat) :
    (Beachline.new.create_root s).root = some 0 := rfl

theorem create_root_new_has_root (s : Nat) :
    (Beachline.new.create_root s).has_root = true := rfl

theorem create_root_new_len (s : Nat) :
    (Beachline.new.create_root s).arcs.length = 1 := rfl

/-- A site event strictly to the right of a one-arc beachline whose focus
lies on the sweep line panics in arc location. -/
theorem handle_site_single_arc_right (sqrt : ℚ → ℚ) (v : Voronoi)
    (site s : Nat) (y : ℚ) (eq : EventQueue)
    (h : ∃ p f : Vector2, v.get_site_point site = some p
        ∧ v.get_site_point s = some f ∧ f.y = y ∧ f.x < p.x) :
    handle_site_event sqrt site v (Beachline.new.create_root s) y eq
      = Except.error Panic.unwrapNone := by
  obtain ⟨p, f, hsite, hf, hy, hx⟩ := h
  simp [handle_site_event, lift, hsite, create_root_new_has_root,
    create_root_new_root, create_root_new_len,
    locate_single_arc_right sqrt v p f y s hf hy hx,
    Except.bind, bind]

/-- C2: the spec expects the four collinear sites (0.2,0.5), (0.4,0.5),
(0.6,0.5), (0.8,0.5) to produce three vertical edges; instead the run
panics: the second popped site event (site 3, by the heap's tie order)
descends in `locate_arc_above` from the root leaf arc (whose focus lies on
the sweep line, with smaller x) to its absent right child and unwraps
`None`. -/
theorem generate_diagram_collinear (sqrt : ℚ → ℚ) :
    generate_diagram sqrt 3 [⟨1/5, 1/2⟩, ⟨2/5, 1/2⟩, ⟨3/5, 1/2⟩, ⟨4/5, 1/2⟩]
      = Except.error Panic.unwrapNone := by
  norm_num [generate_diagram, Voronoi.new, Voronoi.add_site_for_point,
    Voronoi.set_site_face, Voronoi.get_site_point, updAt, List.range_succ,
    EventQueue.new, push_site_empty, push_site_one, push_site_two,
    push_site_three, event_loop, pop_four_ties, pop_three_ties,
    handle_event, handle_site_no_root, handle_site_single_arc_right,
    Except.bind, Except.map, Except.pure, bind, Bind.bind, pure, Pure.pure]

end Fortunes
